import Mathlib

/-!
Verification of the sintautils scraping library (src/sintautils/{core,backend}.py)
against its natural-language specification.

The embedding models:
  * the Python string primitives used by the code (`str.strip`, `str.replace`,
    `str.split`, `in`-containment, `s[-4:]` slicing, `int(str)` parsing),
    restricted to ASCII text (the data the scrapers process);
  * `UtilBackEnd.validate_author_id`, `UtilBackEnd._http_get_with_exception`,
    the pagination resolver, the per-row field extraction (the result of each
    row-relative XPath query is supplied as input data, since HTML parsing is
    an external collaborator), the per-page accumulation loop, the equal-length
    check, and the record/table forging of
    `UtilBackEnd.scrape_gscholar` / `scrape_scopus` / `scrape_wos`;
  * the `AV.get_*` single/multi-identifier dispatch of core.py, including the
    semantics of Python `list.extend` on a list (concatenation) and on a dict
    (appending its keys, in insertion order).

Exceptions are modelled as an error type; a Python function body that falls off
the end returns `none` (Python `None`).
-/

namespace Sintautils

/-! ## Python string primitives (ASCII fragment) -/

/-- ASCII whitespace recognised by Python `str.strip` / `int` (space, tab,
newline, carriage return, vertical tab, form feed). -/
def isPySpace (c : Char) : Bool :=
  c == ' ' || c == '\t' || c == '\n' || c == '\r' || c == Char.ofNat 11 || c == Char.ofNat 12

/-- Python `str.lstrip()` on the character list. -/
def lstripL (cs : List Char) : List Char := cs.dropWhile isPySpace

/-- Python `str.rstrip()` on the character list. -/
def rstripL (cs : List Char) : List Char := (cs.reverse.dropWhile isPySpace).reverse

/-- Python `str.strip()` on the character list. -/
def pyStripL (cs : List Char) : List Char := rstripL (lstripL cs)

/-- Python `str.strip()`. -/
def pyStripS (s : String) : String := ⟨pyStripL s.data⟩

/-- Python substring containment `pat in cs` (empty pattern is contained in
everything, as in Python). -/
def containsL (pat : List Char) : List Char → Bool
  | [] => pat.isEmpty
  | c :: rest => pat.isPrefixOf (c :: rest) || containsL pat rest

/-- Python `pat in s`. -/
def strContains (s pat : String) : Bool := containsL pat.data s.data

/-- Fuel-driven implementation of Python `str.replace(old, new)`: replaces all
non-overlapping occurrences, scanning left to right.  The fuel is the length of
the subject, so the zero-fuel fallback is never reached. -/
def replaceFuel (old new : List Char) : Nat → List Char → List Char
  | _, [] => []
  | 0, cs => cs
  | fuel + 1, c :: rest =>
    if old ≠ [] ∧ old.isPrefixOf (c :: rest) then
      new ++ replaceFuel old new fuel (rest.drop (old.length - 1))
    else
      c :: replaceFuel old new fuel rest

/-- Python `cs.replace(old, new)` on character lists (for the nonempty patterns
used by the code). -/
def replaceL (old new cs : List Char) : List Char := replaceFuel old new cs.length cs

/-- Python `s.replace(old, new)`. -/
def pyReplaceS (s old new : String) : String := ⟨replaceL old.data new.data s.data⟩

/-- Fuel-driven implementation of Python `str.split(sep)` with a nonempty
separator: splits at every non-overlapping occurrence, keeping empty pieces. -/
def splitFuel (sep : List Char) : Nat → List Char → List (List Char)
  | _, [] => [[]]
  | 0, cs => [cs]
  | fuel + 1, c :: rest =>
    if sep ≠ [] ∧ sep.isPrefixOf (c :: rest) then
      [] :: splitFuel sep fuel (rest.drop (sep.length - 1))
    else
      match splitFuel sep fuel rest with
      | [] => [[c]]
      | h :: t => (c :: h) :: t

/-- Python `cs.split(sep)` on character lists. -/
def splitL (sep cs : List Char) : List (List Char) := splitFuel sep cs.length cs

/-- Python `s.split(sep)`. -/
def pySplitS (s sep : String) : List String := (splitL sep.data s.data).map (fun l => ⟨l⟩)

/-- Python slicing `s[-4:]`: the last four characters (the whole string when it
is shorter than four characters). -/
def pyLast4 (s : String) : String := ⟨s.data.drop (s.data.length - 4)⟩

/-- Numeric value of a decimal digit character. -/
def digitVal (c : Char) : Nat := c.toNat - 48

/-- Value of a decimal digit string. -/
def digitsVal (cs : List Char) : Nat := cs.foldl (fun a c => a * 10 + digitVal c) 0

/-- Tail of the digit grammar accepted by Python `int(str)`: further digits,
with single underscores allowed only between digits (PEP 515). -/
def digitsUAux (acc : Nat) : List Char → Option Nat
  | [] => some acc
  | c :: rest =>
    if c = '_' then
      match rest with
      | [] => none
      | c2 :: rest2 =>
        if c2.isDigit then digitsUAux (acc * 10 + digitVal c2) rest2 else none
    else if c.isDigit then digitsUAux (acc * 10 + digitVal c) rest
    else none

/-- Digit part of the grammar accepted by Python `int(str)`: a nonempty digit
sequence with optional single underscores between digits. -/
def digitsU : List Char → Option Nat
  | [] => none
  | c :: rest => if c.isDigit then digitsUAux (digitVal c) rest else none

/-- Python `int(s)` on a string (ASCII fragment): surrounding whitespace is
ignored, an optional single `+`/`-` sign is allowed, then a nonempty digit
sequence with optional underscores between digits.  Returns `none` where Python
raises `ValueError`. -/
def pyIntParse (s : String) : Option Int :=
  match pyStripL s.data with
  | [] => none
  | c :: rest =>
    if c = '+' then (digitsU rest).map Int.ofNat
    else if c = '-' then (digitsU rest).map (fun n => -(n : Int))
    else (digitsU (c :: rest)).map Int.ofNat

/-! ## Author-ID validation (backend.py lines 43-52) -/

/-- `UtilBackEnd.validate_author_id`: `int(str(n))` succeeds (returning `True`)
or raises `ValueError` (returning `False`). -/
def validate_author_id (n : String) : Bool := (pyIntParse n).isSome

/-- The field filter condition `'*' in fields or f in fields` used by every
forging branch. -/
def fieldSel (fields : List String) (f : String) : Bool :=
  fields.contains "*" || fields.contains f

/-! ## Error taxonomy, output shapes and events

The exception classes referenced by backend.py are modelled as constructors.
`attributeError` models the Python `AttributeError` produced downstream when a
fetch returns `None` and the code accesses `r.text`; `valueError` models an
uncaught `ValueError` from `int()` in the pagination parse. -/

inductive Err where
  | invalidParameter (msg : String)
  | invalidAuthorID (authorId : String)
  | invalidLoginCredential
  | authorIDNotFound (authorId : String)
  | malformedDOM (url : String)
  | attributeError
  | valueError
  deriving DecidableEq, Repr

instance {ε α : Type} [DecidableEq ε] [DecidableEq α] : DecidableEq (Except ε α) := fun a b =>
  match a, b with
  | .error e1, .error e2 =>
    if h : e1 = e2 then isTrue (by rw [h]) else isFalse (by simp [h])
  | .ok x, .ok y =>
    if h : x = y then isTrue (by rw [h]) else isFalse (by simp [h])
  | .error _, .ok _ => isFalse (by simp)
  | .ok _, .error _ => isFalse (by simp)

/-- A Python dict mapping field names to string values (insertion-ordered). -/
abbrev Record := List (String × String)

/-- A Python dict mapping field names to value columns (insertion-ordered):
the `csv` output shape. -/
abbrev Table := List (String × List String)

/-- The value returned by one `UtilBackEnd.scrape_*` call: the record list
(`json`) or the column dict (`csv`). -/
inductive Out where
  | records (t : List Record)
  | table (d : Table)
  deriving DecidableEq, Repr

/-- An element of the accumulator list built by the multi-identifier path of
`AV.get_*`: `list.extend` over a record list appends records, over a dict it
appends the dict's keys (strings). -/
inductive Elem where
  | record (r : Record)
  | str (s : String)
  deriving DecidableEq, Repr

/-- The value returned by `AV.get_*`: the backend result for a single (string)
identifier, or the extended accumulator list for a list of identifiers. -/
inductive GetOut where
  | single (o : Out)
  | batch (a : List Elem)
  deriving DecidableEq, Repr

/-- Observable events of one scrape call: HTTP GET requests and the
column-length consistency check. -/
inductive Event where
  | httpGet (url : String)
  | lenCheck (lens : List Nat)
  deriving DecidableEq, Repr

def Event.isHttpGetB : Event → Bool
  | .httpGet _ => true
  | _ => false

def Event.isLenCheckB : Event → Bool
  | .lenCheck _ => true
  | _ => false

/-- An HTTP GET for a paginated results page (URL contains `&page=`). -/
def Event.isPageGetB : Event → Bool
  | .httpGet u => strContains u "&page="
  | _ => false

def Elem.isRecB : Elem → Bool
  | .record _ => true
  | _ => false

def isMalformedE : Err → Bool
  | .malformedDOM _ => true
  | _ => false

def isMalformedRes : Except Err Out → Bool
  | .error (.malformedDOM _) => true
  | _ => false

def exOk {α : Type} : Except Err α → Bool
  | .ok _ => true
  | _ => false

/-- The elements of a successful batch result (and `[]` otherwise). -/
def getBatchElems : Except Err GetOut → List Elem
  | .ok (.batch a) => a
  | _ => []

/-- Row-wise transposition of a column table: the canonical reshape of a
`Table` back into a record sequence.  The row count is necessarily read off the
first column; an empty table transposes to no rows. -/
def transposeTable (d : Table) : List Record :=
  match d with
  | [] => []
  | (_, col) :: _ => (List.range col.length).map (fun j => d.map (fun p => (p.1, p.2.getD j "")))

/-- Value of field `f` in a record (empty string when absent). -/
def recordLookup (r : Record) (f : String) : String :=
  ((r.find? (fun p => p.1 == f)).map Prod.snd).getD ""

/-! ## HTTP layer (backend.py lines 54-66)

A `Resp` is the final resolved response for a URL: the resolved URL after
redirects and the parsed document content, given as the pagination caption text
(first match of the caption XPath, if any) and the per-row XPath extraction
slots.  A `Network` is the environment's response function. -/

structure Resp (Row : Type) where
  finalUrl : String
  caption : Option String
  rows : List Row
  deriving DecidableEq

def Network (Row : Type) := String → Resp Row

/-- A network in which every request resolves to its own URL and returns the
given caption and rows. -/
def constNet {Row : Type} (cap : Option String) (rs : List Row) : Network Row :=
  fun u => { finalUrl := u, caption := cap, rows := rs }

/-- `UtilBackEnd._http_get_with_exception`.  Mirrors the `if/elif` chain of the
source: an exact URL match returns the response; a redirect to the login page
or to the all-authors page raises; any other redirect falls off the end of the
function, which in Python returns `None`. -/
def httpGetWithException {Row : Type} (net : Network Row) (url author_id : String) :
    Except Err (Option (Resp Row)) :=
  let r := net url
  if r.finalUrl = url then .ok (some r)
  else if strContains r.finalUrl "authorverification/login" then .error .invalidLoginCredential
  else if strContains r.finalUrl "authorverification/author/all" then .error (.authorIDNotFound author_id)
  else .ok none

/-! ## Pagination resolver (backend.py lines 102-112) -/

/-- The pagination block of each scraper:
`s.strip().split('|')[0].replace('Page', '').split('of')` followed by
`int(s[1].strip())`, inside `try: ... except IndexError: page_to = 1`.
An absent caption (`IndexError` on the XPath `[0]`) and a caption without an
`of` part (`IndexError` on `s[1]`) both fall back to one page; a non-numeric
page count raises `ValueError`, which the `except` does not catch. -/
def resolvePageCount (caption : Option String) : Except Err Int :=
  match caption with
  | none => .ok 1
  | some s0 =>
    let seg := (pySplitS (pyStripS s0) "|").headD ""
    let parts := pySplitS (pyReplaceS seg "Page" "") "of"
    match parts.get? 1 with
    | none => .ok 1
    | some p =>
      match pyIntParse (pyStripS p) with
      | some n => .ok n
      | none => .error .valueError

/-! ## Generic per-page extraction and forging

Each scraper accumulates one column per field (`s1`, `s2`, ... in the source),
appending exactly one value per result row to each column (each `try/except
IndexError` arm appends).  The columns are modelled as a list of columns in the
field order of the source, and a scraper's row schema as the ordered list of
(field name, per-row extraction function) pairs. -/

def Schema (Row : Type) := List (String × (Row → String))

/-- One loop iteration over a result row: append this row's value to every
column. -/
def appendRow (cols : List (List String)) (vals : List String) : List (List String) :=
  List.zipWith (fun c v => c ++ [v]) cols vals

/-- The `for a in c_base:` loop of one page: every row appends one value per
field column. -/
def extractPage {Row : Type} (schema : Schema Row) (cols : List (List String))
    (rows : List Row) : List (List String) :=
  rows.foldl (fun cs a => appendRow cs (schema.map (fun p => p.2 a))) cols

/-- The empty per-field columns (`s1, s2, ... = [], [], ...`). -/
def colsInit {Row : Type} (schema : Schema Row) : List (List String) :=
  schema.map (fun _ => ([] : List String))

/-- The chained length comparison `len(s1) == len(s2) == ...`. -/
def lensAllEq : List Nat → Bool
  | [] => true
  | n :: ns => ns.all (fun m => n == m)

/-- The `while i < page_to` loop (backend.py lines 120-181): fetch page `i`,
extract its rows into the accumulator columns, remember the page URL. -/
def scrapeLoop {Row : Type} (schema : Schema Row) (net : Network Row)
    (url author_id : String) :
    List Nat → List (List String) → String →
    List Event × Except Err (List (List String) × String)
  | [], cols, newUrl => ([], .ok (cols, newUrl))
  | k :: ks, cols, _ =>
    let newUrl := url ++ "&page=" ++ toString k
    match httpGetWithException net newUrl author_id with
    | .error e => ([.httpGet newUrl], .error e)
    | .ok none => ([.httpGet newUrl], .error .attributeError)
    | .ok (some r) =>
      let (evs, res) := scrapeLoop schema net url author_id ks (extractPage schema cols r.rows) newUrl
      (.httpGet newUrl :: evs, res)

/-- The scraping stage of `UtilBackEnd.scrape_*` up to (and including) the
column-length check: output-format and author-ID validation, first fetch,
pagination resolution, the page loop, then the single equal-length check over
the accumulated columns of all pages, raising `MalformedDOMException(new_url)`
on a mismatch. -/
def scrapeCols {Row : Type} (schema : Schema Row) (urlTemplate : String)
    (net : Network Row) (author_id out_format : String) :
    List Event × Except Err (List (List String) × String) :=
  let l := pyStripS author_id
  if ¬ (out_format = "csv" ∨ out_format = "json") then
    ([], .error (.invalidParameter "\"out_format\" must be one of \"csv\" and \"json\""))
  else if validate_author_id l = false then
    ([], .error (.invalidAuthorID l))
  else
    let url := pyReplaceS urlTemplate "%%%" l
    match httpGetWithException net url author_id with
    | .error e => ([.httpGet url], .error e)
    | .ok none => ([.httpGet url], .error .attributeError)
    | .ok (some r) =>
      match resolvePageCount r.caption with
      | .error e => ([.httpGet url], .error e)
      | .ok pageTo =>
        let (evs, res) := scrapeLoop schema net url author_id
          (List.range' 1 pageTo.toNat) (colsInit schema) ""
        match res with
        | .error e => (.httpGet url :: evs, .error e)
        | .ok (cols, newUrl) =>
          let lens := cols.map List.length
          if lensAllEq lens then
            (.httpGet url :: evs ++ [.lenCheck lens], .ok (cols, newUrl))
          else
            (.httpGet url :: evs ++ [.lenCheck lens], .error (.malformedDOM newUrl))

/-- The per-row dict forging loop (`for j in range(len(s1)) ... u[f] = sF[j]`):
each emitted record carries, in schema order, every field selected by the field
filter.  Indexing `sF[j]` is in bounds because the equal-length check has
passed, so `getD` returns the indexed element. -/
def forgeRecords {Row : Type} (schema : Schema Row) (cols : List (List String))
    (fields : List String) : List Record :=
  let sel := (List.zip (schema.map Prod.fst) cols).filter (fun p => fieldSel fields p.1)
  (List.range (cols.headD []).length).map (fun j => sel.map (fun p => (p.1, p.2.getD j "")))

/-- The column dict forging (`d[f] = sF` under the same field filter). -/
def forgeTableD {Row : Type} (schema : Schema Row) (cols : List (List String))
    (fields : List String) : Table :=
  (List.zip (schema.map Prod.fst) cols).filter (fun p => fieldSel fields p.1)

/-- A full `UtilBackEnd.scrape_*` call: the scraping stage followed by the
output forging, returning the record list for `json` and the column dict for
`csv` (the only remaining case after the format validation). -/
def scrapeRun {Row : Type} (schema : Schema Row) (urlTemplate : String)
    (net : Network Row) (author_id out_format : String) (fields : List String) :
    List Event × Except Err Out :=
  let (evs, res) := scrapeCols schema urlTemplate net author_id out_format
  match res with
  | .error e => (evs, .error e)
  | .ok (cols, _) =>
    if out_format = "json" then (evs, .ok (.records (forgeRecords schema cols fields)))
    else (evs, .ok (.table (forgeTableD schema cols fields)))

/-! ## The three source adapters (backend.py lines 69-606)

A row structure holds, for each field, the first match of the row-relative
XPath query (`none` models the `IndexError` arm of the `try/except`). -/

def URL_AUTHOR_SCOPUS : String :=
  "https://sinta.kemdikbud.go.id/authorverification/author/profile/%%%?view=scopus"

def URL_AUTHOR_WOS : String :=
  "https://sinta.kemdikbud.go.id/authorverification/author/profile/%%%?view=wos"

def URL_AUTHOR_GSCHOLAR : String :=
  "https://sinta.kemdikbud.go.id/authorverification/author/profile/%%%?view=google"

/-- `.strip()` of a present slot, empty string for a missing one. -/
def slotStrip : Option String → String
  | none => ""
  | some x => pyStripS x

/-- The guarded author/creator extraction shared by the three scrapers: the
slot value is accepted only when it carries the expected label, otherwise the
slot held publication info and the author info is missing. -/
def labelGuardVal (label : String) : Option String → String
  | none => ""
  | some x => if strContains x label then pyStripS (pyReplaceS x label "") else ""

structure GsRow where
  titleSlot : Option String
  authorSlot : Option String
  journalSlot : Option String
  yearSlot : Option String
  citationsSlot : Option String
  urlSlot : Option String
  deriving DecidableEq

/-- Field order and per-row extraction of `scrape_gscholar` (title, author with
`Author :` guard, journal, year, citations, url). -/
def gsSchema : Schema GsRow :=
  [("title", fun r => slotStrip r.titleSlot),
   ("author", fun r => labelGuardVal "Author :" r.authorSlot),
   ("journal", fun r => slotStrip r.journalSlot),
   ("year", fun r => slotStrip r.yearSlot),
   ("citations", fun r => slotStrip r.citationsSlot),
   ("url", fun r => slotStrip r.urlSlot)]

structure ScRow where
  titleSlot : Option String
  authorSlot : Option String
  journalSlot : Option String
  typeSlot : Option String
  yearSlot : Option String
  citationsSlot : Option String
  quartileSlot : Option String
  urlSlot : Option String
  deriving DecidableEq

/-- Field order and per-row extraction of `scrape_scopus` (`Creator :` guard,
plus publication type and quartile). -/
def scSchema : Schema ScRow :=
  [("title", fun r => slotStrip r.titleSlot),
   ("author", fun r => labelGuardVal "Creator :" r.authorSlot),
   ("journal", fun r => slotStrip r.journalSlot),
   ("type", fun r => slotStrip r.typeSlot),
   ("year", fun r => slotStrip r.yearSlot),
   ("citations", fun r => slotStrip r.citationsSlot),
   ("quartile", fun r => slotStrip r.quartileSlot),
   ("url", fun r => slotStrip r.urlSlot)]

structure WosRow where
  titleSlot : Option String
  authorSlot : Option String
  journalSlot : Option String
  yearSlot : Option String
  citationsSlot : Option String
  quartileSlot : Option String
  urlSlot : Option String
  deriving DecidableEq

/-- Field order and per-row extraction of `scrape_wos` (`Authors :` guard; the
year slot is stripped and truncated to its last four characters). -/
def wosSchema : Schema WosRow :=
  [("title", fun r => slotStrip r.titleSlot),
   ("author", fun r => labelGuardVal "Authors :" r.authorSlot),
   ("journal", fun r => slotStrip r.journalSlot),
   ("year", fun r => match r.yearSlot with
                     | none => ""
                     | some x => pyLast4 (pyStripS x)),
   ("citations", fun r => slotStrip r.citationsSlot),
   ("quartile", fun r => slotStrip r.quartileSlot),
   ("url", fun r => slotStrip r.urlSlot)]

/-- `UtilBackEnd.scrape_gscholar`. -/
def scrapeGscholar (net : Network GsRow) (author_id out_format : String)
    (fields : List String) : List Event × Except Err Out :=
  scrapeRun gsSchema URL_AUTHOR_GSCHOLAR net author_id out_format fields

/-- `UtilBackEnd.scrape_scopus`. -/
def scrapeScopus (net : Network ScRow) (author_id out_format : String)
    (fields : List String) : List Event × Except Err Out :=
  scrapeRun scSchema URL_AUTHOR_SCOPUS net author_id out_format fields

/-- `UtilBackEnd.scrape_wos`. -/
def scrapeWos (net : Network WosRow) (author_id out_format : String)
    (fields : List String) : List Event × Except Err Out :=
  scrapeRun wosSchema URL_AUTHOR_WOS net author_id out_format fields

/-! ## The `AV.get_*` dispatch (core.py lines 96-281) -/

/-- The `author_id` argument of `AV.get_*`: a single string or a list. -/
inductive AuthorIds where
  | str (s : String)
  | list (l : List String)

/-- Python `a.extend(x)` where `x` is the backend result: extending by a
record list concatenates the records; extending by a dict appends the dict's
keys in insertion order. -/
def outElems : Out → List Elem
  | .records rs => rs.map Elem.record
  | .table d => d.map (fun p => Elem.str p.1)

/-- The `for l in author_id: a.extend(self.backend.scrape_*(...))` loop; an
exception from any scrape aborts the whole call. -/
def avGetLoop (scrape : String → List Event × Except Err Out) :
    List String → List Elem → List Event × Except Err (List Elem)
  | [], a => ([], .ok a)
  | l :: ls, a =>
    match scrape l with
    | (evs, .error e) => (evs, .error e)
    | (evs, .ok o) =>
      let (evs2, r2) := avGetLoop scrape ls (a ++ outElems o)
      (evs ++ evs2, r2)

/-- The shared body of `AV.get_gscholar` / `get_scopus` / `get_wos` /
`get_ipr`: a string identifier is scraped directly (the backend result is
returned in the caller's requested format); a list of identifiers is folded
through `list.extend`. -/
def avGet (scrape : String → List Event × Except Err Out) :
    AuthorIds → List Event × Except Err GetOut
  | .str s =>
    let (evs, r) := scrape s
    (evs, r.map GetOut.single)
  | .list ls =>
    let (evs, r) := avGetLoop scrape ls []
    (evs, r.map GetOut.batch)

/-- `AV.get_gscholar`. -/
def getGscholar (net : Network GsRow) (ids : AuthorIds) (out_format : String)
    (fields : List String) : List Event × Except Err GetOut :=
  avGet (fun l => scrapeGscholar net l out_format fields) ids

/-- `AV.get_scopus`. -/
def getScopus (net : Network ScRow) (ids : AuthorIds) (out_format : String)
    (fields : List String) : List Event × Except Err GetOut :=
  avGet (fun l => scrapeScopus net l out_format fields) ids

/-- `AV.get_wos`. -/
def getWos (net : Network WosRow) (ids : AuthorIds) (out_format : String)
    (fields : List String) : List Event × Except Err GetOut :=
  avGet (fun l => scrapeWos net l out_format fields) ids

/-! ## Concrete test fixtures -/

/-- A Google-Scholar result row with every slot populated. -/
def row0 : GsRow :=
  { titleSlot := some "T", authorSlot := some "Author : A", journalSlot := some "J",
    yearSlot := some "2020", citationsSlot := some "1", urlSlot := some "http://x" }

/-- A well-behaved single-page network serving one fully populated row. -/
def net0 : Network GsRow := constNet none [row0]

/-- A network whose every response redirects to an unrelated page (neither the
requested URL, nor the login page, nor the all-authors page). -/
def redirNet : Network GsRow :=
  fun _ => { finalUrl := "https://example.com/elsewhere", caption := none, rows := [] }

/-- A second unrelated-redirect network. -/
def redirNet2 : Network GsRow :=
  fun _ => { finalUrl := "https://example.net/unrelated", caption := none, rows := [] }

/-- A network on which author 6 resolves to the all-authors listing (the
author-not-found signal) while every other request succeeds with one row. -/
def net5 : Network GsRow := fun u =>
  if strContains u "profile/6" then
    { finalUrl := "https://sinta.kemdikbud.go.id/authorverification/author/all",
      caption := none, rows := [] }
  else { finalUrl := u, caption := none, rows := [row0] }

/-- A two-page network with no result rows. -/
def net2 : Network GsRow := constNet (some "Page 1 of 2 | 20 Total") []

/-! ## Helper lemmas: batch dispatch -/

lemma avGetLoop_error_mid (scrape : String → List Event × Except Err Out) :
    ∀ (pre : List String) (bad : String) (rest : List String) (a : List Elem) (e : Err),
      (∀ l ∈ pre, exOk (scrape l).2 = true) →
      (scrape bad).2 = .error e →
      (avGetLoop scrape (pre ++ bad :: rest) a).2 = .error e := by
  intro pre
  induction pre with
  | nil =>
    intro bad rest a e _ hbad
    rcases hsb : scrape bad with ⟨evs, r⟩
    rw [hsb] at hbad
    simp only at hbad
    subst hbad
    simp [avGetLoop, hsb]
  | cons p pre ih =>
    intro bad rest a e hpre hbad
    rcases hsp : scrape p with ⟨evs, r⟩
    have hp : exOk (scrape p).2 = true := hpre p (by simp)
    rw [hsp] at hp
    cases r with
    | error e2 => simp [exOk] at hp
    | ok o =>
      simp only [List.cons_append, avGetLoop, hsp]
      have := ih bad rest (a ++ outElems o) e (fun l hl => hpre l (by simp [hl])) hbad
      rcases hrec : avGetLoop scrape (pre ++ bad :: rest) (a ++ outElems o) with ⟨evs2, r2⟩
      rw [hrec] at this
      simpa using this

lemma avGetLoop_ok_records (scrape : String → List Event × Except Err Out) :
    ∀ (ls : List String) (rss : List (List Record)) (a : List Elem),
      List.Forall₂ (fun l rs => (scrape l).2 = .ok (.records rs)) ls rss →
      avGetLoop scrape ls a
        = ((ls.map (fun l => (scrape l).1)).flatten,
           .ok (a ++ (rss.flatten).map Elem.record)) := by
  intro ls rss a h
  induction h generalizing a with
  | nil => simp [avGetLoop]
  | @cons l rs ls rss hl _ ih =>
    rcases hsl : scrape l with ⟨evs, r⟩
    rw [hsl] at hl
    simp only at hl
    subst hl
    simp [avGetLoop, hsl, ih, outElems]

lemma avGetLoop_ok_tables (scrape : String → List Event × Except Err Out) :
    ∀ (ls : List String) (ds : List Table) (a : List Elem),
      List.Forall₂ (fun l d => (scrape l).2 = .ok (.table d)) ls ds →
      avGetLoop scrape ls a
        = ((ls.map (fun l => (scrape l).1)).flatten,
           .ok (a ++ ds.flatMap (fun d => d.map (fun p => Elem.str p.1)))) := by
  intro ls ds a h
  induction h generalizing a with
  | nil => simp [avGetLoop]
  | @cons l d ls ds hl _ ih =>
    rcases hsl : scrape l with ⟨evs, r⟩
    rw [hsl] at hl
    simp only at hl
    subst hl
    simp [avGetLoop, hsl, ih, outElems]

/-! ## Helper lemmas: column lengths and the equal-length check -/

lemma appendRow_lengths (cols : List (List String)) (vals : List String)
    (h : cols.length = vals.length) :
    (appendRow cols vals).map List.length = (cols.map List.length).map (· + 1) := by
  induction cols generalizing vals with
  | nil => simp [appendRow]
  | cons c cs ih =>
    cases vals with
    | nil => simp at h
    | cons v vs =>
      have ht := ih vs (by simpa using h)
      simp only [appendRow] at ht ⊢
      simp [ht]

lemma appendRow_length (cols : List (List String)) (vals : List String)
    (h : cols.length = vals.length) :
    (appendRow cols vals).length = cols.length := by
  simp [appendRow, List.length_zipWith, h]

lemma extractPage_lengths {Row : Type} (schema : Schema Row) :
    ∀ (rows : List Row) (cols : List (List String)),
      cols.length = schema.length →
      (extractPage schema cols rows).map List.length
        = (cols.map List.length).map (· + rows.length) := by
  intro rows
  induction rows with
  | nil => intro cols _; simp [extractPage]
  | cons a rows ih =>
    intro cols hlen
    have hv : cols.length = (schema.map (fun p => p.2 a)).length := by simpa using hlen
    have h1 : (appendRow cols (schema.map (fun p => p.2 a))).length = schema.length := by
      rw [appendRow_length cols _ hv]; exact hlen
    have : extractPage schema cols (a :: rows)
        = extractPage schema (appendRow cols (schema.map (fun p => p.2 a))) rows := by
      simp [extractPage]
    rw [this, ih _ h1, appendRow_lengths cols _ hv, List.map_map]
    have hfun : ((fun x => x + rows.length) ∘ fun x => x + 1)
        = (fun x => x + (a :: rows).length) := by
      funext n
      simp only [Function.comp_apply, List.length_cons]
      omega
    rw [hfun]

lemma extractPage_length {Row : Type} (schema : Schema Row)
    (rows : List Row) (cols : List (List String)) (h : cols.length = schema.length) :
    (extractPage schema cols rows).length = cols.length := by
  have := extractPage_lengths schema rows cols h
  have h2 := congrArg List.length this
  simpa using h2

lemma colsInit_length {Row : Type} (schema : Schema Row) :
    (colsInit schema).length = schema.length := by simp [colsInit]

lemma colsInit_lens {Row : Type} (schema : Schema Row) :
    (colsInit schema).map List.length = List.replicate schema.length 0 := by
  simp [colsInit, List.map_map, Function.comp_def, List.map_const']

lemma lensAllEq_replicate (n m : Nat) : lensAllEq (List.replicate n m) = true := by
  cases n with
  | zero => rfl
  | succ k =>
    simp only [List.replicate_succ, lensAllEq, List.all_eq_true]
    intro x hx
    rw [List.eq_of_mem_replicate hx]
    exact beq_self_eq_true m

/-! ## Helper lemmas: error tracking through the pipeline -/

lemma isMalformedRes_eq (r : Except Err Out) :
    isMalformedRes r = match r with
      | .error e => isMalformedE e
      | .ok _ => false := by
  cases r with
  | error e => cases e <;> rfl
  | ok o => rfl

lemma httpGet_error_shape {Row : Type} (net : Network Row) (url aid : String) (e : Err)
    (h : httpGetWithException net url aid = .error e) :
    e = .invalidLoginCredential ∨ e = .authorIDNotFound aid := by
  simp only [httpGetWithException] at h
  split_ifs at h with h1 h2 h3 <;> simp_all

lemma resolvePageCount_error (cap : Option String) (e : Err)
    (h : resolvePageCount cap = .error e) : e = .valueError := by
  unfold resolvePageCount at h
  rcases cap with _ | s0
  · simp at h
  · simp only at h
    split at h
    · simp at h
    · split at h <;> simp_all

lemma scrapeLoop_error {Row : Type} (schema : Schema Row) (net : Network Row)
    (url aid : String) :
    ∀ (ks : List Nat) (cols : List (List String)) (u0 : String) (e : Err),
      (scrapeLoop schema net url aid ks cols u0).2 = .error e →
      isMalformedE e = false := by
  intro ks
  induction ks with
  | nil => intro cols u0 e h; simp [scrapeLoop] at h
  | cons k ks ih =>
    intro cols u0 e h
    simp only [scrapeLoop] at h
    split at h
    · rename_i e2 hg
      injection h with h
      subst h
      rcases httpGet_error_shape net _ aid e2 hg with h2 | h2 <;> simp [h2, isMalformedE]
    · injection h with h
      subst h
      rfl
    · rename_i r hg
      rcases hrec : scrapeLoop schema net url aid ks
          (extractPage schema cols r.rows) (url ++ "&page=" ++ toString k) with ⟨evs2, r2⟩
      rw [hrec] at h
      simp only at h
      exact ih _ _ e (by rw [hrec]; exact h)

lemma scrapeLoop_ok_replicate {Row : Type} (schema : Schema Row) (net : Network Row)
    (url aid : String) :
    ∀ (ks : List Nat) (cols : List (List String)) (u0 : String)
      (cols2 : List (List String)) (u2 : String) (m : Nat),
      cols.length = schema.length →
      cols.map List.length = List.replicate schema.length m →
      (scrapeLoop schema net url aid ks cols u0).2 = .ok (cols2, u2) →
      ∃ m2, cols2.map List.length = List.replicate schema.length m2 := by
  intro ks
  induction ks with
  | nil =>
    intro cols u0 cols2 u2 m hlen hrep h
    simp only [scrapeLoop, Except.ok.injEq, Prod.mk.injEq] at h
    obtain ⟨rfl, rfl⟩ := h
    exact ⟨m, hrep⟩
  | cons k ks ih =>
    intro cols u0 cols2 u2 m hlen hrep h
    simp only [scrapeLoop] at h
    split at h
    · simp at h
    · simp at h
    · rename_i r hg
      rcases hrec : scrapeLoop schema net url aid ks
          (extractPage schema cols r.rows) (url ++ "&page=" ++ toString k) with ⟨evs2, r2⟩
      rw [hrec] at h
      simp only at h
      refine ih (extractPage schema cols r.rows) _ cols2 u2 (m + r.rows.length)
        ?_ ?_ (by rw [hrec]; exact h)
      · rw [extractPage_length schema r.rows cols hlen]; exact hlen
      · rw [extractPage_lengths schema r.rows cols hlen, hrep, List.map_replicate]

lemma scrapeCols_error {Row : Type} (schema : Schema Row) (tmpl : String)
    (net : Network Row) (aid fmt : String) (e : Err)
    (h : (scrapeCols schema tmpl net aid fmt).2 = .error e) :
    isMalformedE e = false := by
  simp only [scrapeCols] at h
  split_ifs at h with h1 h2
  all_goals try (dsimp only at h; injection h with h; subst h; rfl)
  split at h
  · rename_i e2 hg
    dsimp only at h
    injection h with h
    subst h
    rcases httpGet_error_shape net _ aid e2 hg with h3 | h3 <;> simp [h3, isMalformedE]
  · dsimp only at h
    injection h with h
    subst h
    rfl
  · rename_i r hg
    split at h
    · rename_i e2 hpc
      dsimp only at h
      injection h with h
      subst h
      rw [resolvePageCount_error r.caption e2 hpc]
      rfl
    · rename_i pageTo hpc
      rcases hloop : scrapeLoop schema net (pyReplaceS tmpl "%%%" (pyStripS aid)) aid
          (List.range' 1 pageTo.toNat) (colsInit schema) "" with ⟨evs, res⟩
      rw [hloop] at h
      cases res with
      | error e2 =>
        dsimp only at h
        injection h with h
        subst h
        exact scrapeLoop_error schema net _ aid _ _ _ e2 (by rw [hloop])
      | ok cu =>
        obtain ⟨cols, newUrl⟩ := cu
        dsimp only at h
        obtain ⟨m2, hm2⟩ := scrapeLoop_ok_replicate schema net _ aid _ (colsInit schema)
          "" cols newUrl 0 (colsInit_length schema) (colsInit_lens schema)
          (by rw [hloop])
        rw [hm2] at h
        rw [lensAllEq_replicate] at h
        simp at h

lemma scrapeRun_not_malformed {Row : Type} (schema : Schema Row) (tmpl : String)
    (net : Network Row) (aid fmt : String) (fl : List String) :
    isMalformedRes (scrapeRun schema tmpl net aid fmt fl).2 = false := by
  rcases hc : scrapeCols schema tmpl net aid fmt with ⟨evs, res⟩
  cases res with
  | error e =>
    have he : isMalformedE e = false := scrapeCols_error schema tmpl net aid fmt e (by rw [hc])
    simp only [scrapeRun, hc]
    rw [isMalformedRes_eq]
    exact he
  | ok cu =>
    obtain ⟨cols, u⟩ := cu
    simp only [scrapeRun, hc]
    split <;> rfl

/-! ## Claim C4 -/

/-- C4 counterexample: a fetch whose final URL differs from the requested URL
and carries neither classification marker does not surface any explicit
failure — `_http_get_with_exception` falls off its `if/elif` chain and returns
Python `None` (modelled `.ok none`), i.e. it returns no page, contradicting
the claim that it never returns no page. -/
theorem claim4_counterexample :
    httpGetWithException redirNet
      "https://sinta.kemdikbud.go.id/authorverification/author/profile/1?view=google" "1"
      = .ok none := by
  rfl

/-- C4 (amended): for every fetch whose final resolved URL differs from the
requested URL and contains neither the login marker nor the not-found marker,
the fetch never returns the response as if successful, but it also raises no
explicit error: it silently returns no page (Python `None`). -/
theorem claim4_theorem {Row : Type} (net : Network Row) (url aid : String)
    (h1 : (net url).finalUrl ≠ url)
    (h2 : strContains (net url).finalUrl "authorverification/login" = false)
    (h3 : strContains (net url).finalUrl "authorverification/author/all" = false) :
    httpGetWithException net url aid = .ok none := by
  simp [httpGetWithException, h1, h2, h3]

/-- Witness for C4 at a concrete network and URL. -/
theorem claim4_witness :
    httpGetWithException redirNet2 "https://sinta.kemdikbud.go.id/authorverification/x" "9"
      = .ok none :=
  claim4_theorem redirNet2 "https://sinta.kemdikbud.go.id/authorverification/x" "9"
    (by decide) (by decide) (by decide)

/-! ## Claim C5 -/

/-- C5: in a multi-identifier batch call, if every identifier before some
failing identifier scrapes successfully and that identifier raises
`AuthorIDNotFound`, the whole call fails with that error — no partial result
for the earlier identifiers is returned.  Stated for the shared `AV.get_*`
dispatch body over an arbitrary backend scrape, and instantiated for
`AV.get_gscholar`. -/
theorem claim5_theorem :
    (∀ (scrape : String → List Event × Except Err Out) (pre rest : List String)
       (bad bid : String),
      (∀ l ∈ pre, exOk (scrape l).2 = true) →
      (scrape bad).2 = .error (.authorIDNotFound bid) →
      (avGet scrape (.list (pre ++ bad :: rest))).2 = .error (.authorIDNotFound bid))
    ∧ (∀ (net : Network GsRow) (fmt : String) (fl : List String)
         (pre rest : List String) (bad bid : String),
      (∀ l ∈ pre, exOk (scrapeGscholar net l fmt fl).2 = true) →
      (scrapeGscholar net bad fmt fl).2 = .error (.authorIDNotFound bid) →
      (getGscholar net (.list (pre ++ bad :: rest)) fmt fl).2
        = .error (.authorIDNotFound bid)) := by
  have hmain : ∀ (scrape : String → List Event × Except Err Out) (pre rest : List String)
      (bad bid : String),
      (∀ l ∈ pre, exOk (scrape l).2 = true) →
      (scrape bad).2 = .error (.authorIDNotFound bid) →
      (avGet scrape (.list (pre ++ bad :: rest))).2 = .error (.authorIDNotFound bid) := by
    intro scrape pre rest bad bid hpre hbad
    have hl := avGetLoop_error_mid scrape pre bad rest [] (.authorIDNotFound bid) hpre hbad
    rcases hloop : avGetLoop scrape (pre ++ bad :: rest) [] with ⟨evs, r⟩
    rw [hloop] at hl
    simp only at hl
    subst hl
    simp [avGet, hloop, Except.map]
  exact ⟨hmain, fun net fmt fl pre rest bad bid hpre hbad =>
    hmain (fun l => scrapeGscholar net l fmt fl) pre rest bad bid hpre hbad⟩

/-- Witness for C5: on a network where author 5 succeeds and author 6 resolves
to the all-authors page, the batch `["5", "6"]` fails with
`AuthorIDNotFound("6")` and returns nothing for author 5. -/
theorem claim5_witness :
    (getGscholar net5 (.list (["5"] ++ "6" :: [])) "json" ["*"]).2
      = .error (.authorIDNotFound "6") :=
  claim5_theorem.2 net5 "json" ["*"] ["5"] [] "6" "6" (by decide) (by decide)

/-! ## Claim C1 -/

/-- C1 counterexample: a multi-identifier call with the `csv` (table) format
does not return a sequence of field-to-value records: `list.extend` over the
backend's column dict appends the dict's keys, so the batch output is a list
of field-name strings. -/
theorem claim1_counterexample :
    (getGscholar net0 (.list ["5"]) "csv" ["*"]).2
      = .ok (.batch [.str "title", .str "author", .str "journal", .str "year",
                     .str "citations", .str "url"])
    ∧ ((getBatchElems (getGscholar net0 (.list ["5"]) "csv" ["*"]).2).all Elem.isRecB)
        = false := by
  constructor
  · decide
  · decide

/-- C1 (amended): the multi-identifier path of the `AV.get_*` dispatch runs
the per-identifier pipeline once per identifier in input order (the event
trace is the concatenation of the per-identifier traces) and extends one
accumulator list; when the caller requested `json`, the output is the
concatenation of the per-identifier record sequences in input order; when the
caller requested `csv`, each identifier instead contributes the field names
(keys) of its column table, not records.  A single (string) identifier call
returns the backend result in the caller's requested format. -/
theorem claim1_theorem :
    (∀ (scrape : String → List Event × Except Err Out) (s : String),
      avGet scrape (.str s) = ((scrape s).1, ((scrape s).2).map GetOut.single))
    ∧ (∀ (scrape : String → List Event × Except Err Out) (ls : List String)
         (rss : List (List Record)),
      List.Forall₂ (fun l rs => (scrape l).2 = .ok (.records rs)) ls rss →
      avGet scrape (.list ls)
        = ((ls.map (fun l => (scrape l).1)).flatten,
           .ok (.batch ((rss.flatten).map Elem.record))))
    ∧ (∀ (scrape : String → List Event × Except Err Out) (ls : List String)
         (ds : List Table),
      List.Forall₂ (fun l d => (scrape l).2 = .ok (.table d)) ls ds →
      avGet scrape (.list ls)
        = ((ls.map (fun l => (scrape l).1)).flatten,
           .ok (.batch (ds.flatMap (fun d => d.map (fun p => Elem.str p.1))))))
    ∧ (∀ (net : Network GsRow) (s fmt : String) (fl : List String),
      getGscholar net (.str s) fmt fl
        = ((scrapeGscholar net s fmt fl).1,
           ((scrapeGscholar net s fmt fl).2).map GetOut.single)) := by
  refine ⟨?_, ?_, ?_, ?_⟩
  · intro scrape s
    rcases hs : scrape s with ⟨evs, r⟩
    simp [avGet, hs]
  · intro scrape ls rss h
    have hl := avGetLoop_ok_records scrape ls rss [] h
    simp [avGet, hl, Except.map]
  · intro scrape ls ds h
    have hl := avGetLoop_ok_tables scrape ls ds [] h
    simp [avGet, hl, Except.map]
  · intro net s fmt fl
    rcases hs : scrapeGscholar net s fmt fl with ⟨evs, r⟩
    simp [getGscholar, avGet, hs]

/-- The record scraped from `row0` with all fields requested. -/
def rec0 : Record :=
  [("title", "T"), ("author", "A"), ("journal", "J"), ("year", "2020"),
   ("citations", "1"), ("url", "http://x")]

/-- Witness for C1 on a concrete one-row network: the `json` batch for one
identifier is the single record sequence. -/
theorem claim1_witness :
    avGet (fun l => scrapeGscholar net0 l "json" ["*"]) (.list ["5"])
      = ((["5"].map (fun l => (scrapeGscholar net0 l "json" ["*"]).1)).flatten,
         .ok (.batch ((([[rec0]] : List (List Record)).flatten).map Elem.record))) :=
  claim1_theorem.2.1 (fun l => scrapeGscholar net0 l "json" ["*"]) ["5"] [[rec0]]
    (List.Forall₂.cons (by decide) List.Forall₂.nil)

/-! ## Claim C10 -/

/-- C10: every iteration of the per-row extraction loops appends exactly one
value to each per-field column (each column's length grows by one per row, so
after a page all columns have length equal to the processed row count), and
consequently the equal-length check always passes: none of the three scrapers
can return `MalformedDOMException`. -/
theorem claim10_theorem :
    (∀ (Row : Type) (schema : Schema Row) (cols : List (List String)) (a : Row),
      cols.length = schema.length →
      (appendRow cols (schema.map (fun p => p.2 a))).map List.length
        = (cols.map List.length).map (· + 1))
    ∧ (∀ (Row : Type) (schema : Schema Row) (rows : List Row),
      (extractPage schema (colsInit schema) rows).map List.length
        = List.replicate schema.length rows.length)
    ∧ (∀ (net : Network GsRow) (aid fmt : String) (fl : List String),
      isMalformedRes (scrapeGscholar net aid fmt fl).2 = false)
    ∧ (∀ (net : Network ScRow) (aid fmt : String) (fl : List String),
      isMalformedRes (scrapeScopus net aid fmt fl).2 = false)
    ∧ (∀ (net : Network WosRow) (aid fmt : String) (fl : List String),
      isMalformedRes (scrapeWos net aid fmt fl).2 = false) := by
  refine ⟨?_, ?_, ?_, ?_, ?_⟩
  · intro Row schema cols a h
    exact appendRow_lengths cols _ (by simpa using h)
  · intro Row schema rows
    rw [extractPage_lengths schema rows (colsInit schema) (colsInit_length schema),
      colsInit_lens, List.map_replicate]
    simp
  · intro net aid fmt fl
    exact scrapeRun_not_malformed gsSchema URL_AUTHOR_GSCHOLAR net aid fmt fl
  · intro net aid fmt fl
    exact scrapeRun_not_malformed scSchema URL_AUTHOR_SCOPUS net aid fmt fl
  · intro net aid fmt fl
    exact scrapeRun_not_malformed wosSchema URL_AUTHOR_WOS net aid fmt fl

/-- Witness for C10: one extraction step on the Google-Scholar schema grows
every column length by one. -/
theorem claim10_witness :
    (appendRow (colsInit gsSchema) (gsSchema.map (fun p => p.2 row0))).map List.length
      = ((colsInit gsSchema).map List.length).map (· + 1) :=
  claim10_theorem.1 GsRow gsSchema (colsInit gsSchema) row0 (colsInit_length gsSchema)

/-! ## Helper lemmas: digit characters and `int()` parsing -/

lemma digit_facts (c : Char) (h : c.isDigit = true) :
    isPySpace c = false ∧ c ≠ '_' ∧ c ≠ '+' ∧ c ≠ '-' ∧ c ≠ '|' ∧ c ≠ 'o' ∧ c ≠ 'f'
      ∧ c ≠ 'P' ∧ c ≠ 'a' ∧ c ≠ 'g' ∧ c ≠ 'e' := by
  refine ⟨?_, ?_, ?_, ?_, ?_, ?_, ?_, ?_, ?_, ?_, ?_⟩
  · by_cases hs : isPySpace c = true
    · simp only [isPySpace, Bool.or_eq_true, beq_iff_eq] at hs
      rcases hs with ((((rfl | rfl) | rfl) | rfl) | rfl) | rfl <;> revert h <;> decide
    · simpa using hs
  all_goals intro heq; subst heq; revert h; decide

lemma digitsUAux_digits :
    ∀ (cs : List Char) (acc : Nat),
      (∀ c ∈ cs, c.isDigit = true) →
      digitsUAux acc cs = some (cs.foldl (fun a c => a * 10 + digitVal c) acc) := by
  intro cs
  induction cs with
  | nil => intro acc _; rfl
  | cons c rest ih =>
    intro acc hall
    have hc : c.isDigit = true := hall c (by simp)
    have hne : ¬ (c = '_') := (digit_facts c hc).2.1
    rw [digitsUAux.eq_def]
    dsimp only
    rw [if_neg hne, if_pos hc, List.foldl_cons]
    exact ih _ (fun x hx => hall x (by simp [hx]))

lemma digitsU_digits (cs : List Char) (hne : cs ≠ [])
    (hall : ∀ c ∈ cs, c.isDigit = true) :
    digitsU cs = some (digitsVal cs) := by
  cases cs with
  | nil => exact absurd rfl hne
  | cons c rest =>
    have hc : c.isDigit = true := hall c (by simp)
    rw [digitsU, if_pos hc, digitsUAux_digits rest _ (fun x hx => hall x (by simp [hx]))]
    simp [digitsVal]

lemma pyStripL_digits (cs : List Char) (hall : ∀ c ∈ cs, c.isDigit = true) :
    pyStripL cs = cs := by
  have hl : lstripL cs = cs := by
    cases cs with
    | nil => rfl
    | cons c rest =>
      have := (digit_facts c (hall c (by simp))).1
      simp [lstripL, List.dropWhile_cons, this]
  have hr : rstripL cs = cs := by
    rcases hrev : cs.reverse with _ | ⟨c, rest⟩
    · have : cs = [] := by simpa using congrArg List.reverse hrev
      simp [this, rstripL]
    · have hc : c ∈ cs := by
        rw [← List.mem_reverse, hrev]; simp
      have := (digit_facts c (hall c hc)).1
      rw [rstripL, hrev, List.dropWhile_cons, this]
      simp only [Bool.false_eq_true, if_false]
      rw [← hrev, List.reverse_reverse]
  rw [pyStripL, hl, hr]

/-! ## Claim C3 -/

/-- C3 counterexample: the identifier `"-5"` is not digits-only after
trimming, yet `validate_author_id` accepts it (`int("-5")` succeeds), and a
scrape with it proceeds to issue HTTP requests. -/
theorem claim3_counterexample :
    validate_author_id "-5" = true
    ∧ ((pyStripL "-5".data).all Char.isDigit) = false
    ∧ ((scrapeGscholar net0 "-5" "json" ["*"]).1.isEmpty) = false := by
  refine ⟨by decide, by decide, by decide⟩

/-- C3 (amended): every identifier that is digits-only after trimming is
accepted, but the accepted set is strictly larger — `validate_author_id` is
Python `int()` applied to the string, which also accepts an optional sign and
underscore separators (e.g. `"-5"`).  For every identifier the check rejects,
the scrape raises `InvalidAuthorID` before any HTTP request is issued (the
event trace is empty), provided the output format passed its own validation
first. -/
theorem claim3_theorem (s fmt : String) (fl : List String) (net : Network GsRow) :
    ((pyStripL s.data ≠ [] ∧ ∀ c ∈ pyStripL s.data, c.isDigit = true) →
      validate_author_id s = true)
    ∧ ((fmt = "csv" ∨ fmt = "json") →
       validate_author_id (pyStripS s) = false →
       scrapeGscholar net s fmt fl = ([], .error (.invalidAuthorID (pyStripS s)))) := by
  constructor
  · rintro ⟨hne, hall⟩
    rw [validate_author_id, pyIntParse]
    rcases hstrip : pyStripL s.data with _ | ⟨c, rest⟩
    · exact absurd hstrip hne
    · rw [hstrip] at hall
      have hc : c.isDigit = true := hall c (by simp)
      dsimp only
      rw [if_neg (digit_facts c hc).2.2.1, if_neg (digit_facts c hc).2.2.2.1,
        digitsU_digits (c :: rest) (by simp) hall]
      rfl
  · intro hfmt hval
    rw [scrapeGscholar, scrapeRun, scrapeCols, if_neg (not_not_intro hfmt), if_pos hval]

/-- Witness for C3: `"007"` (digits-only) is accepted; `"abc"` is rejected
with `InvalidAuthorID` and an empty request trace. -/
def idDigits : String := "007"

def idAlpha : String := "abc"

theorem claim3_witness :
    validate_author_id "007" = true
    ∧ scrapeGscholar net0 "abc" "json" ["*"] = ([], .error (.invalidAuthorID (pyStripS "abc"))) :=
  ⟨(claim3_theorem idDigits "json" ["*"] net0).1 (by decide),
   (claim3_theorem idAlpha "json" ["*"] net0).2 (Or.inr rfl) (by decide)⟩

/-! ## Helper lemmas: event traces -/

lemma scrapeLoop_events {Row : Type} (schema : Schema Row) (net : Network Row)
    (url aid : String) :
    ∀ (ks : List Nat) (cols : List (List String)) (u0 : String),
      ∀ e ∈ (scrapeLoop schema net url aid ks cols u0).1, e.isHttpGetB = true := by
  intro ks
  induction ks with
  | nil => intro cols u0 e he; simp [scrapeLoop] at he
  | cons k ks ih =>
    intro cols u0 e he
    simp only [scrapeLoop] at he
    split at he
    · simp at he; subst he; rfl
    · simp at he; subst he; rfl
    · rename_i r hg
      rcases hrec : scrapeLoop schema net url aid ks
          (extractPage schema cols r.rows) (url ++ "&page=" ++ toString k) with ⟨evs2, r2⟩
      rw [hrec] at he
      simp only [List.mem_cons] at he
      rcases he with rfl | he
      · rfl
      · exact ih _ _ e (by rw [hrec]; exact he)

lemma scrapeCols_shape {Row : Type} (schema : Schema Row) (tmpl : String)
    (net : Network Row) (aid fmt : String) :
    ((∀ e ∈ (scrapeCols schema tmpl net aid fmt).1, e.isHttpGetB = true)
      ∧ exOk (scrapeCols schema tmpl net aid fmt).2 = false)
    ∨ (∃ gets lens, (scrapeCols schema tmpl net aid fmt).1 = gets ++ [Event.lenCheck lens]
        ∧ ∀ e ∈ gets, e.isHttpGetB = true) := by
  rcases hsc : scrapeCols schema tmpl net aid fmt with ⟨evs, res⟩
  dsimp only
  simp only [scrapeCols] at hsc
  split_ifs at hsc with h1 h2
  all_goals try (injection hsc with he hr; subst he; subst hr; exact Or.inl ⟨fun e h => absurd h (by simp), rfl⟩)
  split at hsc
  · injection hsc with he hr; subst he; subst hr
    exact Or.inl ⟨fun e h => by simp at h; subst h; rfl, rfl⟩
  · injection hsc with he hr; subst he; subst hr
    exact Or.inl ⟨fun e h => by simp at h; subst h; rfl, rfl⟩
  · rename_i r hg
    split at hsc
    · injection hsc with he hr; subst he; subst hr
      exact Or.inl ⟨fun e h => by simp at h; subst h; rfl, rfl⟩
    · rename_i pageTo hpc
      rcases hloop : scrapeLoop schema net (pyReplaceS tmpl "%%%" (pyStripS aid)) aid
          (List.range' 1 pageTo.toNat) (colsInit schema) "" with ⟨levs, lres⟩
      rw [hloop] at hsc
      have hlevs : ∀ e ∈ levs, e.isHttpGetB = true := by
        intro e he
        exact scrapeLoop_events schema net _ aid _ _ _ e (by rw [hloop]; exact he)
      cases lres with
      | error e2 =>
        dsimp only at hsc
        injection hsc with he hr; subst he; subst hr
        refine Or.inl ⟨?_, rfl⟩
        intro e h
        simp only [List.mem_cons] at h
        rcases h with rfl | h
        · rfl
        · exact hlevs e h
      | ok cu =>
        obtain ⟨cols, newUrl⟩ := cu
        dsimp only at hsc
        split_ifs at hsc
        · injection hsc with he hr
          subst he; subst hr
          refine Or.inr ⟨Event.httpGet (pyReplaceS tmpl "%%%" (pyStripS aid)) :: levs,
            cols.map List.length, by simp, ?_⟩
          intro e h
          simp only [List.mem_cons] at h
          rcases h with rfl | h
          · rfl
          · exact hlevs e h
        · injection hsc with he hr
          subst he; subst hr
          refine Or.inr ⟨Event.httpGet (pyReplaceS tmpl "%%%" (pyStripS aid)) :: levs,
            cols.map List.length, by simp, ?_⟩
          intro e h
          simp only [List.mem_cons] at h
          rcases h with rfl | h
          · rfl
          · exact hlevs e h

lemma scrapeCols_ok_trace {Row : Type} (schema : Schema Row) (tmpl : String)
    (net : Network Row) (aid fmt : String) (x : List (List String) × String)
    (h : (scrapeCols schema tmpl net aid fmt).2 = .ok x) :
    ∃ gets lens, (scrapeCols schema tmpl net aid fmt).1 = gets ++ [Event.lenCheck lens]
      ∧ ∀ e ∈ gets, e.isHttpGetB = true := by
  rcases scrapeCols_shape schema tmpl net aid fmt with ⟨_, hko⟩ | hshape
  · rw [h] at hko
    simp [exOk] at hko
  · exact hshape

lemma scrapeRun_fst {Row : Type} (schema : Schema Row) (tmpl : String)
    (net : Network Row) (aid fmt : String) (fl : List String) :
    (scrapeRun schema tmpl net aid fmt fl).1 = (scrapeCols schema tmpl net aid fmt).1 := by
  rcases hc : scrapeCols schema tmpl net aid fmt with ⟨evs, res⟩
  simp only [scrapeRun, hc]
  cases res with
  | error e => rfl
  | ok cu =>
    obtain ⟨cols, u⟩ := cu
    dsimp only
    split_ifs <;> rfl

lemma scrapeRun_ok_cols {Row : Type} (schema : Schema Row) (tmpl : String)
    (net : Network Row) (aid fmt : String) (fl : List String) (o : Out)
    (h : (scrapeRun schema tmpl net aid fmt fl).2 = .ok o) :
    ∃ x, (scrapeCols schema tmpl net aid fmt).2 = .ok x := by
  rcases hc : scrapeCols schema tmpl net aid fmt with ⟨evs, res⟩
  rw [scrapeRun, hc] at h
  cases res with
  | error e => simp at h
  | ok cu => exact ⟨cu, rfl⟩

lemma httpGet_not_lenCheck (e : Event) (h : e.isHttpGetB = true) :
    e.isLenCheckB = false := by
  cases e with
  | httpGet u => rfl
  | lenCheck l => simp [Event.isHttpGetB] at h

/-! ## Claim C2 -/

/-- C2 counterexample: on a two-page scrape, two paginated result pages are
fetched but only one length check occurs — the check is not performed once per
fetched page. -/
theorem claim2_counterexample :
    ((scrapeGscholar net2 "7" "json" ["*"]).1.countP Event.isLenCheckB = 1)
    ∧ ((scrapeGscholar net2 "7" "json" ["*"]).1.countP Event.isPageGetB = 2)
    ∧ (decide ((scrapeGscholar net2 "7" "json" ["*"]).1.countP Event.isLenCheckB
        = (scrapeGscholar net2 "7" "json" ["*"]).1.countP Event.isPageGetB) = false) := by
  refine ⟨by decide, by decide, by decide⟩

/-- C2 (amended): the equal-length check over the per-field value columns runs
once per scrape call, not once per page: the event trace of a scrape either
contains no length check (a failure before the loop finished) or ends with
exactly one length check, performed after all page fetches over the columns
accumulated across all pages and before any record is built; every scrape that
returns a result performed exactly one such check.  (A mismatch would raise
`MalformedDocument` carrying the last-fetched page URL, per the code's
`new_url`.) -/
theorem claim2_theorem (Row : Type) (schema : Schema Row) (tmpl : String)
    (net : Network Row) (aid fmt : String) (fl : List String) :
    ((∀ e ∈ (scrapeRun schema tmpl net aid fmt fl).1, e.isHttpGetB = true)
      ∨ ∃ gets lens, (scrapeRun schema tmpl net aid fmt fl).1 = gets ++ [Event.lenCheck lens]
          ∧ ∀ e ∈ gets, e.isHttpGetB = true)
    ∧ (∀ o : Out, (scrapeRun schema tmpl net aid fmt fl).2 = .ok o →
        (scrapeRun schema tmpl net aid fmt fl).1.countP Event.isLenCheckB = 1) := by
  constructor
  · rw [scrapeRun_fst]
    rcases scrapeCols_shape schema tmpl net aid fmt with ⟨hall, _⟩ | hsh
    · exact Or.inl hall
    · exact Or.inr hsh
  · intro o ho
    obtain ⟨x, hx⟩ := scrapeRun_ok_cols schema tmpl net aid fmt fl o ho
    obtain ⟨gets, lens, htr, hget⟩ := scrapeCols_ok_trace schema tmpl net aid fmt x hx
    rw [scrapeRun_fst, htr, List.countP_append]
    have h0 : gets.countP Event.isLenCheckB = 0 := by
      rw [List.countP_eq_zero]
      intro e he
      simp [httpGet_not_lenCheck e (hget e he)]
    rw [h0]
    rfl

/-- Witness for C2: the two-page scrape performs exactly one length check. -/
theorem claim2_witness :
    (scrapeRun gsSchema URL_AUTHOR_GSCHOLAR net2 "7" "json" ["*"]).1.countP
      Event.isLenCheckB = 1 :=
  (claim2_theorem GsRow gsSchema URL_AUTHOR_GSCHOLAR net2 "7" "json" ["*"]).2
    (.records []) (by decide)

/-! ## Helper lemmas: successful scrapes and forging -/

lemma lensAllEq_mem (ns : List Nat) (h : lensAllEq ns = true) :
    ∀ m ∈ ns, m = ns.headD 0 := by
  cases ns with
  | nil => intro m hm; simp at hm
  | cons n rest =>
    intro m hm
    simp only [lensAllEq, List.all_eq_true] at h
    rcases List.mem_cons.mp hm with rfl | hm
    · rfl
    · have hb := h m hm
      simp only [beq_iff_eq] at hb
      simp [← hb]

lemma scrapeCols_ok_inv {Row : Type} (schema : Schema Row) (tmpl : String)
    (net : Network Row) (aid fmt : String) (cols : List (List String)) (u : String)
    (h : (scrapeCols schema tmpl net aid fmt).2 = .ok (cols, u)) :
    lensAllEq (cols.map List.length) = true ∧ cols.length = schema.length := by
  rcases hsc : scrapeCols schema tmpl net aid fmt with ⟨evs, res⟩
  rw [hsc] at h
  dsimp only at h
  subst h
  simp only [scrapeCols] at hsc
  split_ifs at hsc with h1 h2
  all_goals try (injection hsc with he hr; simp at hr)
  split at hsc
  · injection hsc with he hr; simp at hr
  · injection hsc with he hr; simp at hr
  · rename_i r hg
    split at hsc
    · injection hsc with he hr; simp at hr
    · rename_i pageTo hpc
      rcases hloop : scrapeLoop schema net (pyReplaceS tmpl "%%%" (pyStripS aid)) aid
          (List.range' 1 pageTo.toNat) (colsInit schema) "" with ⟨levs, lres⟩
      rw [hloop] at hsc
      cases lres with
      | error e2 => dsimp only at hsc; injection hsc with he hr; simp at hr
      | ok cu =>
        obtain ⟨cols2, newUrl⟩ := cu
        obtain ⟨m2, hm2⟩ := scrapeLoop_ok_replicate schema net _ aid _ (colsInit schema)
          "" cols2 newUrl 0 (colsInit_length schema) (colsInit_lens schema)
          (by rw [hloop])
        dsimp only at hsc
        rw [hm2, lensAllEq_replicate] at hsc
        simp only [if_true] at hsc
        injection hsc with he hr
        injection hr with hr
        injection hr with hcols hu
        subst hcols
        constructor
        · rw [hm2]
          exact lensAllEq_replicate _ _
        · have := congrArg List.length hm2
          simpa using this

lemma scrapeCols_fmt_agnostic {Row : Type} (schema : Schema Row) (tmpl : String)
    (net : Network Row) (aid : String) :
    scrapeCols schema tmpl net aid "csv" = scrapeCols schema tmpl net aid "json" := by
  rw [scrapeCols, scrapeCols]
  simp

lemma scrapeRun_json_ok {Row : Type} (schema : Schema Row) (tmpl : String)
    (net : Network Row) (aid : String) (fl : List String)
    (cols : List (List String)) (u : String)
    (h : (scrapeCols schema tmpl net aid "json").2 = .ok (cols, u)) :
    (scrapeRun schema tmpl net aid "json" fl).2
      = .ok (.records (forgeRecords schema cols fl)) := by
  rcases hc : scrapeCols schema tmpl net aid "json" with ⟨evs, res⟩
  rw [hc] at h
  dsimp only at h
  subst h
  simp [scrapeRun, hc]

lemma scrapeRun_csv_ok {Row : Type} (schema : Schema Row) (tmpl : String)
    (net : Network Row) (aid : String) (fl : List String)
    (cols : List (List String)) (u : String)
    (h : (scrapeCols schema tmpl net aid "json").2 = .ok (cols, u)) :
    (scrapeRun schema tmpl net aid "csv" fl).2
      = .ok (.table (forgeTableD schema cols fl)) := by
  have h2 : (scrapeCols schema tmpl net aid "csv").2 = .ok (cols, u) := by
    rw [scrapeCols_fmt_agnostic]; exact h
  rcases hc : scrapeCols schema tmpl net aid "csv" with ⟨evs, res⟩
  rw [hc] at h2
  dsimp only at h2
  subst h2
  simp [scrapeRun, hc]

lemma transpose_forge {Row : Type} (schema : Schema Row) (cols : List (List String))
    (fl : List String)
    (hlen : cols.length = schema.length)
    (heq : lensAllEq (cols.map List.length) = true)
    (hne : forgeTableD schema cols fl ≠ []) :
    transposeTable (forgeTableD schema cols fl) = forgeRecords schema cols fl := by
  rcases hd : forgeTableD schema cols fl with _ | ⟨⟨f0, col0⟩, rest⟩
  · exact absurd hd hne
  · have hmem : (f0, col0) ∈ forgeTableD schema cols fl := by rw [hd]; simp
    have hmem2 : (f0, col0) ∈ List.zip (schema.map Prod.fst) cols :=
      List.mem_of_mem_filter hmem
    have hcol0 : col0 ∈ cols := (List.of_mem_zip hmem2).2
    have hleneq : col0.length = (cols.headD []).length := by
      have h1 : col0.length ∈ cols.map List.length := List.mem_map_of_mem List.length hcol0
      have h2 := lensAllEq_mem (cols.map List.length) heq col0.length h1
      rw [h2]
      cases cols with
      | nil => simp at hcol0
      | cons c cs => rfl
    rw [transposeTable]
    rw [hleneq]
    simp only [← hd]
    rfl

/-! ## Claim C6 -/

/-- C6 counterexample: with a field selection matching no schema field, the
record-sequence output of a one-row scrape is one empty record, while the
table output is an empty dict; transposing the empty table yields zero
records, so the two shapes do not carry identical information (the table
drops the row count). -/
theorem claim6_counterexample :
    (scrapeGscholar net0 "1" "json" ["bogus"]).2 = .ok (.records [[]])
    ∧ (scrapeGscholar net0 "1" "csv" ["bogus"]).2 = .ok (.table [])
    ∧ (decide (transposeTable ([] : Table) = ([[]] : List Record))) = false := by
  refine ⟨by decide, by decide, by decide⟩

/-- C6 (amended): for every scrape and every requested field set that emits at
least one field, the record-sequence (`json`) output and the table (`csv`)
output of the same scrape carry identical information: transposing the table's
field-to-column mapping row-wise reproduces the record sequence exactly, for
all rows and all emitted fields.  (When the field filter emits no field, the
record sequence still carries the row count while the table is empty, so the
equivalence requires a nonempty field selection.) -/
theorem claim6_theorem (Row : Type) (schema : Schema Row) (tmpl : String)
    (net : Network Row) (aid : String) (fl : List String)
    (cols : List (List String)) (u : String)
    (hok : (scrapeCols schema tmpl net aid "json").2 = .ok (cols, u))
    (hf : ∃ f ∈ schema.map Prod.fst, fieldSel fl f = true) :
    (scrapeRun schema tmpl net aid "json" fl).2
      = .ok (.records (forgeRecords schema cols fl))
    ∧ (scrapeRun schema tmpl net aid "csv" fl).2
      = .ok (.table (forgeTableD schema cols fl))
    ∧ transposeTable (forgeTableD schema cols fl) = forgeRecords schema cols fl := by
  obtain ⟨heq, hlen⟩ := scrapeCols_ok_inv schema tmpl net aid "json" cols u hok
  obtain ⟨f, hfmem, hfsel⟩ := hf
  have hne : forgeTableD schema cols fl ≠ [] := by
    have hmfst : (List.zip (schema.map Prod.fst) cols).map Prod.fst = schema.map Prod.fst :=
      List.map_fst_zip _ _ (by simp [hlen])
    rw [← hmfst] at hfmem
    obtain ⟨p, hp, hpf⟩ := List.mem_map.mp hfmem
    have hpd : p ∈ forgeTableD schema cols fl := by
      rw [forgeTableD, List.mem_filter]
      exact ⟨hp, by rw [hpf]; exact hfsel⟩
    exact List.ne_nil_of_mem hpd
  exact ⟨scrapeRun_json_ok schema tmpl net aid fl cols u hok,
    scrapeRun_csv_ok schema tmpl net aid fl cols u hok,
    transpose_forge schema cols fl hlen heq hne⟩

/-- The columns accumulated by the fixture scrape of `net0` for author 5. -/
def cols0 : List (List String) := [["T"], ["A"], ["J"], ["2020"], ["1"], ["http://x"]]

/-- Witness for C6 at the one-row fixture network with all fields requested. -/
theorem claim6_witness :
    (scrapeRun gsSchema URL_AUTHOR_GSCHOLAR net0 "5" "json" ["*"]).2
      = .ok (.records (forgeRecords gsSchema cols0 ["*"]))
    ∧ (scrapeRun gsSchema URL_AUTHOR_GSCHOLAR net0 "5" "csv" ["*"]).2
      = .ok (.table (forgeTableD gsSchema cols0 ["*"]))
    ∧ transposeTable (forgeTableD gsSchema cols0 ["*"])
      = forgeRecords gsSchema cols0 ["*"] :=
  claim6_theorem GsRow gsSchema URL_AUTHOR_GSCHOLAR net0 "5" ["*"] cols0
    "https://sinta.kemdikbud.go.id/authorverification/author/profile/5?view=google&page=1"
    (by decide) ⟨"title", by decide, by decide⟩

/-! ## Helper lemmas: symbolic evaluation of a one-page scrape -/

lemma zipWith_map_same {α β γ δ : Type} (f : β → γ → δ) (g : α → β) (h : α → γ) :
    ∀ (l : List α), List.zipWith f (l.map g) (l.map h) = l.map (fun x => f (g x) (h x)) := by
  intro l
  induction l with
  | nil => rfl
  | cons a l ih => simp [ih]

lemma extractPage_shift {Row : Type} (schema : Schema Row) :
    ∀ (rows : List Row) (g : (String × (Row → String)) → List String),
      extractPage schema (schema.map g) rows
        = schema.map (fun p => g p ++ rows.map p.2) := by
  intro rows
  induction rows with
  | nil =>
    intro g
    simp [extractPage]
  | cons a rows ih =>
    intro g
    have h1 : extractPage schema (schema.map g) (a :: rows)
        = extractPage schema (appendRow (schema.map g) (schema.map (fun p => p.2 a))) rows := by
      simp [extractPage]
    have h2 : appendRow (schema.map g) (schema.map (fun p => p.2 a))
        = schema.map (fun p => g p ++ [p.2 a]) := by
      rw [appendRow, zipWith_map_same]
    rw [h1, h2, ih (fun p => g p ++ [p.2 a])]
    apply List.map_congr_left
    intro p _
    simp

lemma extractPage_init {Row : Type} (schema : Schema Row) (rows : List Row) :
    extractPage schema (colsInit schema) rows = schema.map (fun p => rows.map p.2) := by
  have := extractPage_shift schema rows (fun _ => ([] : List String))
  rw [colsInit]
  rw [this]
  simp

lemma httpGet_constNet {Row : Type} (cap : Option String) (rows : List Row)
    (url aid : String) :
    httpGetWithException (constNet cap rows) url aid
      = .ok (some { finalUrl := url, caption := cap, rows := rows }) := by
  simp [httpGetWithException, constNet]

lemma scrapeLoop_one {Row : Type} (schema : Schema Row) (cap : Option String)
    (rows : List Row) (url aid : String) :
    scrapeLoop schema (constNet cap rows) url aid [1] (colsInit schema) ""
      = ([.httpGet (url ++ "&page=" ++ toString 1)],
         .ok (extractPage schema (colsInit schema) rows, url ++ "&page=" ++ toString 1)) := by
  simp [scrapeLoop, httpGet_constNet]

lemma extractPage_colsInit_lens {Row : Type} (schema : Schema Row) (rows : List Row) :
    (extractPage schema (colsInit schema) rows).map List.length
      = List.replicate schema.length rows.length := by
  rw [extractPage_lengths schema rows (colsInit schema) (colsInit_length schema),
    colsInit_lens, List.map_replicate]
  simp

lemma scrapeCols_constNet {Row : Type} (schema : Schema Row) (tmpl : String)
    (cap : Option String) (rows : List Row)
    (hpage : resolvePageCount cap = .ok 1) :
    scrapeCols schema tmpl (constNet cap rows) "123" "json"
      = ([.httpGet (pyReplaceS tmpl "%%%" (pyStripS "123")),
          .httpGet (pyReplaceS tmpl "%%%" (pyStripS "123") ++ "&page=" ++ toString 1),
          .lenCheck (List.replicate schema.length rows.length)],
         .ok (schema.map (fun p => rows.map p.2),
              pyReplaceS tmpl "%%%" (pyStripS "123") ++ "&page=" ++ toString 1)) := by
  rw [scrapeCols]
  dsimp only
  rw [if_neg (by decide), if_neg (by decide)]
  rw [httpGet_constNet]
  dsimp only
  rw [hpage]
  dsimp only
  have hr : List.range' 1 (1 : Int).toNat = [1] := rfl
  rw [hr, scrapeLoop_one]
  dsimp only
  rw [extractPage_colsInit_lens, lensAllEq_replicate]
  simp only [if_true]
  rw [extractPage_init]
  simp

lemma scrapeRun_constNet_json {Row : Type} (schema : Schema Row) (tmpl : String)
    (cap : Option String) (rows : List Row) (fl : List String)
    (hpage : resolvePageCount cap = .ok 1) :
    (scrapeRun schema tmpl (constNet cap rows) "123" "json" fl).2
      = .ok (.records (forgeRecords schema (schema.map (fun p => rows.map p.2)) fl)) := by
  rw [scrapeRun, scrapeCols_constNet schema tmpl cap rows hpage]
  dsimp only
  rw [if_pos rfl]

lemma forgeRecords_star {Row : Type} (schema : Schema Row) (rows : List Row) :
    forgeRecords schema (schema.map (fun p => rows.map p.2)) ["*"]
      = (List.range ((schema.map (fun p => rows.map p.2)).headD []).length).map
          (fun j => schema.map (fun p => (p.1, (rows.map p.2).getD j ""))) := by
  rw [forgeRecords]
  have hz : List.zip (schema.map Prod.fst) (schema.map (fun p => rows.map p.2))
      = schema.map (fun p => (p.1, rows.map p.2)) := List.zip_map' _ _ _
  rw [hz]
  have hf : (schema.map (fun p => (p.1, rows.map p.2))).filter
      (fun p => fieldSel ["*"] p.1) = schema.map (fun p => (p.1, rows.map p.2)) := by
    apply List.filter_eq_self.mpr
    intro p _
    rfl
  rw [hf]
  apply List.map_congr_left
  intro j _
  rw [List.map_map]
  rfl

lemma forged_record_at {Row : Type} (schema : Schema Row) (rows : List Row)
    (j : Nat) (hj : j < rows.length) (p0 : String × (Row → String)) (ps : Schema Row)
    (hs : schema = p0 :: ps) :
    (forgeRecords schema (schema.map (fun p => rows.map p.2)) ["*"]).getD j []
      = schema.map (fun p => (p.1, p.2 (rows.get ⟨j, hj⟩))) := by
  rw [forgeRecords_star]
  have hhead : ((schema.map (fun p => rows.map p.2)).headD []).length = rows.length := by
    rw [hs]
    simp
  rw [hhead]
  have hr : j < (List.range rows.length).length := by simpa using hj
  rw [List.getD_eq_getElem _ _ (by simpa using hj), List.getElem_map, List.getElem_range]
  apply List.map_congr_left
  intro p _
  have : (rows.map p.2).getD j "" = p.2 (rows.get ⟨j, hj⟩) := by
    rw [List.getD_eq_getElem _ _ (by simpa using hj), List.getElem_map]
    simp [List.get_eq_getElem]
  rw [this]

/-- The record sequence produced by a full-field Google-Scholar scrape of one
page of rows. -/
def gsPageRecords (gs : List GsRow) : List Record :=
  forgeRecords gsSchema (extractPage gsSchema (colsInit gsSchema) gs) ["*"]

/-- The record sequence produced by a full-field Scopus scrape of one page. -/
def scPageRecords (sc : List ScRow) : List Record :=
  forgeRecords scSchema (extractPage scSchema (colsInit scSchema) sc) ["*"]

/-- The record sequence produced by a full-field Web-of-Science scrape of one
page. -/
def wosPageRecords (ws : List WosRow) : List Record :=
  forgeRecords wosSchema (extractPage wosSchema (colsInit wosSchema) ws) ["*"]

lemma gsPageRecords_at (gs : List GsRow) (j : Nat) (hj : j < gs.length) :
    (gsPageRecords gs).getD j []
      = gsSchema.map (fun p => (p.1, p.2 (gs.get ⟨j, hj⟩))) := by
  rw [gsPageRecords, extractPage_init]
  exact forged_record_at gsSchema gs j hj _ _ rfl

lemma scPageRecords_at (sc : List ScRow) (j : Nat) (hj : j < sc.length) :
    (scPageRecords sc).getD j []
      = scSchema.map (fun p => (p.1, p.2 (sc.get ⟨j, hj⟩))) := by
  rw [scPageRecords, extractPage_init]
  exact forged_record_at scSchema sc j hj _ _ rfl

lemma wosPageRecords_at (ws : List WosRow) (j : Nat) (hj : j < ws.length) :
    (wosPageRecords ws).getD j []
      = wosSchema.map (fun p => (p.1, p.2 (ws.get ⟨j, hj⟩))) := by
  rw [wosPageRecords, extractPage_init]
  exact forged_record_at wosSchema ws j hj _ _ rfl

/-! ## Claim C7 -/

/-- C7: in each of the three scrapers, a present author/creator markup slot
yields the slot text with the source's label (`Author :` / `Creator :` /
`Authors :`) removed and whitespace stripped when the slot text contains that
label, and the empty string otherwise — the unguarded raw text is never
emitted; a missing slot also yields the empty string.  Stated on the record
sequence produced by a full one-page scrape over an arbitrary row list. -/
theorem claim7_theorem (gs : List GsRow) (sc : List ScRow) (ws : List WosRow)
    (j : Nat) (x : String) :
    ((scrapeGscholar (constNet none gs) "123" "json" ["*"]).2
      = .ok (.records (gsPageRecords gs)))
    ∧ (∀ (hj : j < gs.length), (gs.get ⟨j, hj⟩).authorSlot = some x →
        recordLookup ((gsPageRecords gs).getD j []) "author"
          = (if strContains x "Author :" = true
             then pyStripS (pyReplaceS x "Author :" "") else ""))
    ∧ (∀ (hj : j < gs.length), (gs.get ⟨j, hj⟩).authorSlot = none →
        recordLookup ((gsPageRecords gs).getD j []) "author" = "")
    ∧ ((scrapeScopus (constNet none sc) "123" "json" ["*"]).2
      = .ok (.records (scPageRecords sc)))
    ∧ (∀ (hj : j < sc.length), (sc.get ⟨j, hj⟩).authorSlot = some x →
        recordLookup ((scPageRecords sc).getD j []) "author"
          = (if strContains x "Creator :" = true
             then pyStripS (pyReplaceS x "Creator :" "") else ""))
    ∧ (∀ (hj : j < sc.length), (sc.get ⟨j, hj⟩).authorSlot = none →
        recordLookup ((scPageRecords sc).getD j []) "author" = "")
    ∧ ((scrapeWos (constNet none ws) "123" "json" ["*"]).2
      = .ok (.records (wosPageRecords ws)))
    ∧ (∀ (hj : j < ws.length), (ws.get ⟨j, hj⟩).authorSlot = some x →
        recordLookup ((wosPageRecords ws).getD j []) "author"
          = (if strContains x "Authors :" = true
             then pyStripS (pyReplaceS x "Authors :" "") else ""))
    ∧ (∀ (hj : j < ws.length), (ws.get ⟨j, hj⟩).authorSlot = none →
        recordLookup ((wosPageRecords ws).getD j []) "author" = "") := by
  refine ⟨?_, ?_, ?_, ?_, ?_, ?_, ?_, ?_, ?_⟩
  · rw [scrapeGscholar, gsPageRecords, extractPage_init]
    exact scrapeRun_constNet_json gsSchema URL_AUTHOR_GSCHOLAR none gs ["*"] rfl
  · intro hj hx
    rw [gsPageRecords_at gs j hj]
    simp only [List.get_eq_getElem] at hx
    simp [gsSchema, recordLookup, List.find?, labelGuardVal, hx]
  · intro hj hx
    rw [gsPageRecords_at gs j hj]
    simp only [List.get_eq_getElem] at hx
    simp [gsSchema, recordLookup, List.find?, labelGuardVal, hx]
  · rw [scrapeScopus, scPageRecords, extractPage_init]
    exact scrapeRun_constNet_json scSchema URL_AUTHOR_SCOPUS none sc ["*"] rfl
  · intro hj hx
    rw [scPageRecords_at sc j hj]
    simp only [List.get_eq_getElem] at hx
    simp [scSchema, recordLookup, List.find?, labelGuardVal, hx]
  · intro hj hx
    rw [scPageRecords_at sc j hj]
    simp only [List.get_eq_getElem] at hx
    simp [scSchema, recordLookup, List.find?, labelGuardVal, hx]
  · rw [scrapeWos, wosPageRecords, extractPage_init]
    exact scrapeRun_constNet_json wosSchema URL_AUTHOR_WOS none ws ["*"] rfl
  · intro hj hx
    rw [wosPageRecords_at ws j hj]
    simp only [List.get_eq_getElem] at hx
    simp [wosSchema, recordLookup, List.find?, labelGuardVal, hx]
  · intro hj hx
    rw [wosPageRecords_at ws j hj]
    simp only [List.get_eq_getElem] at hx
    simp [wosSchema, recordLookup, List.find?, labelGuardVal, hx]

/-- A row whose author slot holds journal text with no `Author :` label. -/
def gsRowNJ : GsRow :=
  { titleSlot := some "T", authorSlot := some "Some Journal Name",
    journalSlot := none, yearSlot := none, citationsSlot := none, urlSlot := none }

/-- Witness for C7: a slot reading `"Some Journal Name"` (no label) projects
to the empty author field, not the raw text. -/
theorem claim7_witness :
    recordLookup ((gsPageRecords [gsRowNJ]).getD 0 []) "author" = "" :=
  ((claim7_theorem [gsRowNJ] [] [] 0 "Some Journal Name").2.1 (by decide)
    (by decide)).trans (by decide)

/-! ## Claim C9 -/

/-- C9: in the Web-of-Science scraper, a present year slot yields the last
four characters of the stripped raw date text, and a missing slot yields the
empty string. -/
theorem claim9_theorem (ws : List WosRow) (j : Nat) (x : String) :
    ((scrapeWos (constNet none ws) "123" "json" ["*"]).2
      = .ok (.records (wosPageRecords ws)))
    ∧ (∀ (hj : j < ws.length), (ws.get ⟨j, hj⟩).yearSlot = some x →
        recordLookup ((wosPageRecords ws).getD j []) "year" = pyLast4 (pyStripS x))
    ∧ (∀ (hj : j < ws.length), (ws.get ⟨j, hj⟩).yearSlot = none →
        recordLookup ((wosPageRecords ws).getD j []) "year" = "") := by
  refine ⟨?_, ?_, ?_⟩
  · rw [scrapeWos, wosPageRecords, extractPage_init]
    exact scrapeRun_constNet_json wosSchema URL_AUTHOR_WOS none ws ["*"] rfl
  · intro hj hx
    rw [wosPageRecords_at ws j hj]
    simp only [List.get_eq_getElem] at hx
    simp [wosSchema, recordLookup, List.find?, hx]
  · intro hj hx
    rw [wosPageRecords_at ws j hj]
    simp only [List.get_eq_getElem] at hx
    simp [wosSchema, recordLookup, List.find?, hx]

/-- A Web-of-Science row whose raw date text carries a trailing qualifier. -/
def wosRowY : WosRow :=
  { titleSlot := none, authorSlot := none, journalSlot := none,
    yearSlot := some "Published 2019", citationsSlot := none,
    quartileSlot := none, urlSlot := none }

/-- Witness for C9: raw year text `"Published 2019"` projects to `"2019"`. -/
theorem claim9_witness :
    recordLookup ((wosPageRecords [wosRowY]).getD 0 []) "year" = "2019" :=
  ((claim9_theorem [wosRowY] 0 "Published 2019").2.1 (by decide)
    (by decide)).trans (by decide)

/-! ## Helper lemmas: `split`, `replace` and `strip` on structured text -/

lemma drop_len_le (l : List Char) (k : Nat) : (l.drop k).length ≤ l.length := by
  rw [List.length_drop]
  omega

lemma isPrefixOf_cons_ne (a b : Char) (as bs : List Char) (h : a ≠ b) :
    (a :: as).isPrefixOf (b :: bs) = false := by
  simp [List.isPrefixOf, h]

lemma isPrefixOf_self_append (l t : List Char) : l.isPrefixOf (l ++ t) = true :=
  List.isPrefixOf_iff_prefix.mpr (List.prefix_append l t)

lemma splitFuel_congr (sep : List Char) :
    ∀ (f1 : Nat) (cs : List Char) (f2 : Nat), cs.length ≤ f1 → cs.length ≤ f2 →
      splitFuel sep f1 cs = splitFuel sep f2 cs := by
  intro f1
  induction f1 with
  | zero =>
    intro cs f2 h1 _
    have : cs = [] := List.eq_nil_of_length_eq_zero (Nat.le_zero.mp h1)
    subst this
    cases f2 <;> rfl
  | succ g1 ih =>
    intro cs f2 h1 h2
    cases cs with
    | nil => cases f2 <;> rfl
    | cons c rest =>
      cases f2 with
      | zero => simp at h2
      | succ g2 =>
        simp only [splitFuel]
        split_ifs with hpre
        · rw [ih (rest.drop (sep.length - 1)) g2
            (le_trans (drop_len_le _ _) (by simp only [List.length_cons] at h1; omega))
            (le_trans (drop_len_le _ _) (by simp only [List.length_cons] at h2; omega))]
        · rw [ih rest g2 (by simpa using h1) (by simpa using h2)]

lemma splitL_cons_pos (sep : List Char) (c : Char) (rest : List Char)
    (h : sep ≠ [] ∧ sep.isPrefixOf (c :: rest) = true) :
    splitL sep (c :: rest) = [] :: splitL sep (rest.drop (sep.length - 1)) := by
  rw [splitL, splitL]
  show splitFuel sep (rest.length + 1) (c :: rest) = _
  rw [splitFuel, if_pos h]
  rw [splitFuel_congr sep rest.length (rest.drop (sep.length - 1))
    (rest.drop (sep.length - 1)).length (drop_len_le _ _) le_rfl]

lemma splitL_cons_neg (sep : List Char) (c : Char) (rest : List Char)
    (h : ¬ (sep ≠ [] ∧ sep.isPrefixOf (c :: rest) = true)) :
    splitL sep (c :: rest)
      = match splitL sep rest with
        | [] => [[c]]
        | h :: t => (c :: h) :: t := by
  rw [splitL, splitL]
  show splitFuel sep (rest.length + 1) (c :: rest) = _
  rw [splitFuel, if_neg h]

lemma splitL_all_notin (sep : List Char) :
    ∀ (x : List Char), (∀ c ∈ x, c ∉ sep) → splitL sep x = [x] := by
  intro x
  induction x with
  | nil => intro _; rfl
  | cons c rest ih =>
    intro hx
    have hc : c ∉ sep := hx c (by simp)
    have hguard : ¬ (sep ≠ [] ∧ sep.isPrefixOf (c :: rest) = true) := by
      rintro ⟨hne, hpre⟩
      cases sep with
      | nil => exact hne rfl
      | cons s st =>
        by_cases hsc : s = c
        · exact hc (by rw [← hsc]; simp)
        · rw [isPrefixOf_cons_ne s c st rest hsc] at hpre
          simp at hpre
    rw [splitL_cons_neg sep c rest hguard, ih (fun d hd => hx d (by simp [hd]))]

lemma splitL_append_sep (sep : List Char) (hsep : sep ≠ []) :
    ∀ (x y : List Char), (∀ c ∈ x, c ∉ sep) →
      splitL sep (x ++ sep ++ y) = x :: splitL sep y := by
  intro x
  induction x with
  | nil =>
    intro y _
    cases sep with
    | nil => exact absurd rfl hsep
    | cons s st =>
      have : ([] : List Char) ++ (s :: st) ++ y = s :: (st ++ y) := by simp
      rw [this, splitL_cons_pos (s :: st) s (st ++ y)
        ⟨hsep, by simpa using isPrefixOf_self_append (s :: st) y⟩]
      simp [List.drop_left']
  | cons c rest ih =>
    intro y hx
    have hc : c ∉ sep := hx c (by simp)
    have hguard : ¬ (sep ≠ [] ∧ sep.isPrefixOf (c :: (rest ++ sep ++ y)) = true) := by
      rintro ⟨_, hpre⟩
      cases sep with
      | nil => exact hsep rfl
      | cons s st =>
        by_cases hsc : s = c
        · exact hc (by rw [← hsc]; simp)
        · rw [isPrefixOf_cons_ne s c st _ hsc] at hpre
          simp at hpre
    have harr : (c :: rest) ++ sep ++ y = c :: (rest ++ sep ++ y) := by simp
    rw [harr, splitL_cons_neg sep c _ hguard, ih y (fun d hd => hx d (by simp [hd]))]

lemma replaceFuel_congr (old new : List Char) :
    ∀ (f1 : Nat) (cs : List Char) (f2 : Nat), cs.length ≤ f1 → cs.length ≤ f2 →
      replaceFuel old new f1 cs = replaceFuel old new f2 cs := by
  intro f1
  induction f1 with
  | zero =>
    intro cs f2 h1 _
    have : cs = [] := List.eq_nil_of_length_eq_zero (Nat.le_zero.mp h1)
    subst this
    cases f2 <;> rfl
  | succ g1 ih =>
    intro cs f2 h1 h2
    cases cs with
    | nil => cases f2 <;> rfl
    | cons c rest =>
      cases f2 with
      | zero => simp at h2
      | succ g2 =>
        simp only [replaceFuel]
        split_ifs with hpre
        · rw [ih (rest.drop (old.length - 1)) g2
            (le_trans (drop_len_le _ _) (by simp only [List.length_cons] at h1; omega))
            (le_trans (drop_len_le _ _) (by simp only [List.length_cons] at h2; omega))]
        · rw [ih rest g2 (by simpa using h1) (by simpa using h2)]

lemma replaceL_cons_neg (old new : List Char) (c : Char) (rest : List Char)
    (h : ¬ (old ≠ [] ∧ old.isPrefixOf (c :: rest) = true)) :
    replaceL old new (c :: rest) = c :: replaceL old new rest := by
  rw [replaceL, replaceL]
  show replaceFuel old new (rest.length + 1) (c :: rest) = _
  rw [replaceFuel, if_neg h]

lemma replaceL_notin (old new : List Char) :
    ∀ (x : List Char), (∀ c ∈ x, c ∉ old) → replaceL old new x = x := by
  intro x
  induction x with
  | nil => intro _; rfl
  | cons c rest ih =>
    intro hx
    have hc : c ∉ old := hx c (by simp)
    have hguard : ¬ (old ≠ [] ∧ old.isPrefixOf (c :: rest) = true) := by
      rintro ⟨hne, hpre⟩
      cases old with
      | nil => exact hne rfl
      | cons s st =>
        by_cases hsc : s = c
        · exact hc (by rw [← hsc]; simp)
        · rw [isPrefixOf_cons_ne s c st rest hsc] at hpre
          simp at hpre
    rw [replaceL_cons_neg old new c rest hguard, ih (fun d hd => hx d (by simp [hd]))]

lemma replaceL_pat_head (old new t : List Char) (hold : old ≠ []) :
    replaceL old new (old ++ t) = new ++ replaceL old new t := by
  cases old with
  | nil => exact absurd rfl hold
  | cons s st =>
    have harr : (s :: st) ++ t = s :: (st ++ t) := by simp
    rw [harr, replaceL, replaceL]
    show replaceFuel (s :: st) new ((st ++ t).length + 1) (s :: (st ++ t)) = _
    rw [replaceFuel, if_pos ⟨hold, by simpa using isPrefixOf_self_append (s :: st) t⟩]
    simp only [List.length_cons, Nat.add_sub_cancel]
    rw [List.drop_left']
    · rw [replaceFuel_congr (s :: st) new (st ++ t).length t t.length
        (by simp) le_rfl]
    · rfl

lemma dropWhile_ne_nil_of_mem {p : Char → Bool} :
    ∀ (l : List Char), (∃ c ∈ l, p c = false) → l.dropWhile p ≠ [] := by
  intro l
  induction l with
  | nil => rintro ⟨c, hc, _⟩; simp at hc
  | cons a l ih =>
    rintro ⟨c, hc, hpc⟩
    rw [List.dropWhile_cons]
    split_ifs with hpa
    · rcases List.mem_cons.mp hc with rfl | hc2
      · rw [hpa] at hpc; simp at hpc
      · exact ih ⟨c, hc2, hpc⟩
    · simp

lemma rstripL_append_keep (u v : List Char) (hv : ∃ c ∈ v, isPySpace c = false) :
    rstripL (u ++ v) = u ++ rstripL v := by
  rw [rstripL, rstripL, List.reverse_append, List.dropWhile_append]
  have hne : (v.reverse.dropWhile isPySpace).isEmpty = false := by
    have := dropWhile_ne_nil_of_mem v.reverse
      (by obtain ⟨c, hc, hpc⟩ := hv; exact ⟨c, by simpa using hc, hpc⟩)
    simpa [List.isEmpty_iff] using this
  rw [hne]
  simp

lemma rstripL_cons_nospace (c : Char) (l : List Char) (hc : isPySpace c = false) :
    rstripL (c :: l) = c :: rstripL l := by
  have : c :: l = [c] ++ l := rfl
  by_cases hl : ∃ d ∈ l, isPySpace d = false
  · rw [this, rstripL_append_keep [c] l hl]
    rfl
  · have hall : ∀ d ∈ l.reverse, isPySpace d = true := by
      intro d hd
      by_contra hdc
      exact hl ⟨d, by simpa using hd, by simpa using hdc⟩
    have h1 : rstripL l = [] := by
      rw [rstripL, List.dropWhile_eq_nil_iff.mpr (fun d hd => hall d hd)]
      rfl
    have h2 : rstripL (c :: l) = [c] := by
      rw [rstripL]
      have : (c :: l).reverse = l.reverse ++ [c] := by simp
      rw [this, List.dropWhile_append]
      rw [List.dropWhile_eq_nil_iff.mpr (fun d hd => hall d hd)]
      simp [hc]
    rw [h1, h2]

lemma rstripL_append_space (z : List Char) (c : Char) (hc : isPySpace c = true) :
    rstripL (z ++ [c]) = rstripL z := by
  rw [rstripL, rstripL, List.reverse_append]
  simp [List.dropWhile_cons, hc]

lemma lstripL_cons_space (c : Char) (l : List Char) (hc : isPySpace c = true) :
    lstripL (c :: l) = lstripL l := by
  simp [lstripL, List.dropWhile_cons, hc]

lemma lstripL_cons_nospace (c : Char) (l : List Char) (hc : isPySpace c = false) :
    lstripL (c :: l) = c :: l := by
  simp [lstripL, List.dropWhile_cons, hc]

lemma rstripL_digits (b : List Char) (hall : ∀ c ∈ b, c.isDigit = true) :
    rstripL b = b := by
  rcases hrev : b.reverse with _ | ⟨c, rest⟩
  · have : b = [] := by simpa using congrArg List.reverse hrev
    simp [this, rstripL]
  · have hc : c ∈ b := by rw [← List.mem_reverse, hrev]; simp
    have := (digit_facts c (hall c hc)).1
    rw [rstripL, hrev, List.dropWhile_cons, this]
    simp only [Bool.false_eq_true, if_false]
    rw [← hrev, List.reverse_reverse]

lemma digit_notin_pipe (c : Char) (h : c.isDigit = true) : c ∉ (['|'] : List Char) := by
  have h5 := (digit_facts c h).2.2.2.2.1
  simp [h5]

lemma digit_notin_of (c : Char) (h : c.isDigit = true) : c ∉ (['o', 'f'] : List Char) := by
  have h6 := (digit_facts c h).2.2.2.2.2.1
  have h7 := (digit_facts c h).2.2.2.2.2.2.1
  simp [h6, h7]

lemma digit_notin_Page (c : Char) (h : c.isDigit = true) :
    c ∉ (['P', 'a', 'g', 'e'] : List Char) := by
  obtain ⟨-, -, -, -, -, -, -, h8, h9, h10, h11⟩ := digit_facts c h
  simp [h8, h9, h10, h11]

/-- The pagination caption of the shape `Page <a> of <b> | ...` resolves to
`<b>`: the full chain `strip`, `split('|')[0]`, `replace('Page','')`,
`split('of')[1]`, `strip`, `int(...)` of the source, for arbitrary digit
strings `<a>`, `<b>` and an arbitrary tail. -/
lemma resolvePageCount_shaped (a b r : String)
    (ha : a.data ≠ []) (hb : b.data ≠ [])
    (hda : ∀ c ∈ a.data, c.isDigit = true) (hdb : ∀ c ∈ b.data, c.isDigit = true) :
    resolvePageCount (some ("Page " ++ a ++ " of " ++ b ++ " | " ++ r))
      = .ok (Int.ofNat (digitsVal b.data)) := by
  obtain ⟨bc, btail, hbd⟩ : ∃ c t, b.data = c :: t := by
    cases hx : b.data with
    | nil => exact absurd hx hb
    | cons c t => exact ⟨c, t, rfl⟩
  -- the caption, regrouped around the first `|`
  have hgroup : ("Page " ++ a ++ " of " ++ b ++ " | " ++ r).data
      = ('P' :: 'a' :: 'g' :: 'e' :: ' '
          :: (a.data ++ (' ' :: 'o' :: 'f' :: ' ' :: (b.data ++ [' ']))))
        ++ ('|' :: ' ' :: r.data) := by
    simp [String.data_append]
  have hU : ∀ c ∈ ('P' :: 'a' :: 'g' :: 'e' :: ' '
      :: (a.data ++ (' ' :: 'o' :: 'f' :: ' ' :: (b.data ++ [' '])))),
      c ∉ (['|'] : List Char) := by
    intro c hc
    simp only [List.mem_cons, List.mem_append, List.mem_singleton, List.not_mem_nil,
      or_false] at hc
    rcases hc with rfl | rfl | rfl | rfl | rfl | hc | rfl | rfl | rfl | rfl | hc | rfl
    all_goals try exact digit_notin_pipe c (hda c hc)
    all_goals try exact digit_notin_pipe c (hdb c hc)
    all_goals decide
  -- strip: the leading `P` survives, trailing whitespace is eaten up to `|`
  have hstrip : pyStripS ("Page " ++ a ++ " of " ++ b ++ " | " ++ r)
      = ⟨('P' :: 'a' :: 'g' :: 'e' :: ' '
          :: (a.data ++ (' ' :: 'o' :: 'f' :: ' ' :: (b.data ++ [' ']))))
         ++ ('|' :: rstripL (' ' :: r.data))⟩ := by
    rw [pyStripS, hgroup, pyStripL]
    rw [List.cons_append, lstripL_cons_nospace _ _ (by decide), ← List.cons_append]
    rw [rstripL_append_keep _ _ ⟨'|', by simp, by decide⟩]
    rw [rstripL_cons_nospace '|' _ (by decide)]
  -- split on `|`: the head segment is everything before the bar
  have hsplit1 : pySplitS (pyStripS ("Page " ++ a ++ " of " ++ b ++ " | " ++ r)) "|"
      = ⟨'P' :: 'a' :: 'g' :: 'e' :: ' '
          :: (a.data ++ (' ' :: 'o' :: 'f' :: ' ' :: (b.data ++ [' '])))⟩
        :: (splitL ['|'] (rstripL (' ' :: r.data))).map (fun l => ⟨l⟩) := by
    rw [hstrip, pySplitS]
    have hbar : ("|" : String).data = ['|'] := rfl
    rw [hbar]
    have hre : ('P' :: 'a' :: 'g' :: 'e' :: ' '
          :: (a.data ++ (' ' :: 'o' :: 'f' :: ' ' :: (b.data ++ [' ']))))
         ++ ('|' :: rstripL (' ' :: r.data))
        = ('P' :: 'a' :: 'g' :: 'e' :: ' '
          :: (a.data ++ (' ' :: 'o' :: 'f' :: ' ' :: (b.data ++ [' ']))))
         ++ ['|'] ++ rstripL (' ' :: r.data) := by
      simp
    rw [hre, splitL_append_sep ['|'] (by decide) _ _ hU]
    rfl
  -- replace `Page`: the label disappears, the rest is untouched
  have hrepl : pyReplaceS ⟨'P' :: 'a' :: 'g' :: 'e' :: ' '
        :: (a.data ++ (' ' :: 'o' :: 'f' :: ' ' :: (b.data ++ [' '])))⟩ "Page" ""
      = ⟨' ' :: (a.data ++ (' ' :: 'o' :: 'f' :: ' ' :: (b.data ++ [' '])))⟩ := by
    rw [pyReplaceS]
    have hP : ("Page" : String).data = ['P', 'a', 'g', 'e'] := rfl
    have hE : ("" : String).data = [] := rfl
    rw [hP, hE]
    have hre : ('P' :: 'a' :: 'g' :: 'e' :: ' '
          :: (a.data ++ (' ' :: 'o' :: 'f' :: ' ' :: (b.data ++ [' ']))))
        = ['P', 'a', 'g', 'e']
          ++ (' ' :: (a.data ++ (' ' :: 'o' :: 'f' :: ' ' :: (b.data ++ [' '])))) := rfl
    rw [hre, replaceL_pat_head _ _ _ (by decide)]
    have hnot : ∀ c ∈ ' ' :: (a.data ++ (' ' :: 'o' :: 'f' :: ' ' :: (b.data ++ [' ']))),
        c ∉ (['P', 'a', 'g', 'e'] : List Char) := by
      intro c hc
      simp only [List.mem_cons, List.mem_append, List.mem_singleton, List.not_mem_nil,
        or_false] at hc
      rcases hc with rfl | hc | rfl | rfl | rfl | rfl | hc | rfl
      all_goals try exact digit_notin_Page c (hda c hc)
      all_goals try exact digit_notin_Page c (hdb c hc)
      all_goals decide
    rw [replaceL_notin _ _ _ hnot]
    rfl
  -- split on `of`: two segments, `<a>` and `<b>` with surrounding spaces
  have hsplit2 : pySplitS ⟨' ' :: (a.data ++ (' ' :: 'o' :: 'f' :: ' '
        :: (b.data ++ [' '])))⟩ "of"
      = [⟨(' ' :: a.data) ++ [' ']⟩, ⟨' ' :: (b.data ++ [' '])⟩] := by
    rw [pySplitS]
    have hof : ("of" : String).data = ['o', 'f'] := rfl
    rw [hof]
    have hre : ' ' :: (a.data ++ (' ' :: 'o' :: 'f' :: ' ' :: (b.data ++ [' '])))
        = ((' ' :: a.data) ++ [' ']) ++ ['o', 'f'] ++ (' ' :: (b.data ++ [' '])) := by
      simp
    have hnx : ∀ c ∈ (' ' :: a.data) ++ [' '], c ∉ (['o', 'f'] : List Char) := by
      intro c hc
      simp only [List.mem_cons, List.mem_append, List.mem_singleton, List.not_mem_nil,
        or_false] at hc
      rcases hc with (rfl | hc) | rfl
      all_goals try exact digit_notin_of c (hda c hc)
      all_goals decide
    have hny : ∀ c ∈ ' ' :: (b.data ++ [' ']), c ∉ (['o', 'f'] : List Char) := by
      intro c hc
      simp only [List.mem_cons, List.mem_append, List.mem_singleton, List.not_mem_nil,
        or_false] at hc
      rcases hc with rfl | hc | rfl
      all_goals try exact digit_notin_of c (hdb c hc)
      all_goals decide
    rw [hre, splitL_append_sep ['o', 'f'] (by decide) _ _ hnx,
      splitL_all_notin ['o', 'f'] _ hny]
    rfl
  -- strip the `<b>` segment down to the digits
  have hstripb : pyStripS ⟨' ' :: (b.data ++ [' '])⟩ = ⟨b.data⟩ := by
    rw [pyStripS, pyStripL]
    show String.mk (rstripL (lstripL (' ' :: (b.data ++ [' '])))) = _
    rw [lstripL_cons_space _ _ (by decide)]
    rw [hbd, List.cons_append,
      lstripL_cons_nospace _ _ ((digit_facts bc (hdb bc (by rw [hbd]; simp))).1),
      ← List.cons_append, ← hbd]
    rw [rstripL_append_space _ _ (by decide), rstripL_digits b.data hdb]
  -- parse the digits
  have hint : pyIntParse ⟨b.data⟩ = some (Int.ofNat (digitsVal b.data)) := by
    rw [pyIntParse]
    show (match pyStripL b.data with
      | [] => none
      | c :: rest =>
        if c = '+' then (digitsU rest).map Int.ofNat
        else if c = '-' then (digitsU rest).map (fun n => -(n : Int))
        else (digitsU (c :: rest)).map Int.ofNat) = _
    rw [pyStripL_digits b.data hdb, hbd]
    dsimp only
    have hbc : bc.isDigit = true := hdb bc (by rw [hbd]; simp)
    rw [if_neg (digit_facts bc hbc).2.2.1, if_neg (digit_facts bc hbc).2.2.2.1]
    rw [← hbd, digitsU_digits b.data hb hdb]
    rfl
  -- assemble the resolver
  rw [resolvePageCount]
  rw [hsplit1]
  dsimp only [List.headD_cons]
  rw [hrepl, hsplit2]
  have hget : ∀ (s t : String), ([s, t] : List String).get? 1 = some t := fun s t => rfl
  rw [hget]
  dsimp only
  rw [hstripb, hint]

/-! ## Claim C8 -/

/-- C8: (i) an absent pagination caption resolves to exactly one page rather
than failing; (ii) a zero-row single page then yields an empty record sequence
rather than an error; (iii) a caption of the shape `Page <a> of <b> | ...`
(digit strings `<a>`, `<b>`, arbitrary tail) resolves to `<b>`. -/
theorem claim8_theorem (a b r : String) :
    (resolvePageCount none = .ok 1)
    ∧ ((scrapeGscholar (constNet none ([] : List GsRow)) "123" "json" ["*"]).2
        = .ok (.records []))
    ∧ (a.data ≠ [] → b.data ≠ [] → (∀ c ∈ a.data, c.isDigit = true) →
       (∀ c ∈ b.data, c.isDigit = true) →
       resolvePageCount (some ("Page " ++ a ++ " of " ++ b ++ " | " ++ r))
         = .ok (Int.ofNat (digitsVal b.data))) := by
  refine ⟨rfl, by decide, ?_⟩
  intro ha hb hda hdb
  exact resolvePageCount_shaped a b r ha hb hda hdb

/-- Witness for C8: the caption `"Page 1 of 2 | 20 Total"` resolves to two
pages. -/
def capA : String := "1"

def capB : String := "2"

def capTail : String := "20 Total"

theorem claim8_witness :
    resolvePageCount (some ("Page " ++ "1" ++ " of " ++ "2" ++ " | " ++ "20 Total"))
      = .ok (Int.ofNat (digitsVal ("2" : String).data)) :=
  (claim8_theorem capA capB capTail).2.2 (by decide) (by decide) (by decide) (by decide)

end Sintautils
